import Mathlib

/-!
# mini_agent: supervisor / agent control loops and the remote tool client

A shallow embedding of the Go packages `tools`, `supervisor` and `mcp`.

* Go's `(string, error)` results are pairs `String × Option String`; the
  second component is the error message, `none` standing for `nil`.
* The language-model backend reached by `config.ChatModel.Invoke` is an
  external service: it is a transition on a backend state `γ`.
* Tool functions may reach external services as well (remote tools do an
  HTTP exchange): they are transitions on a tool environment `ω`.
* The two `for { ... }` loops have no iteration bound in the source; they are
  embedded with a fuel argument, `none` meaning that the fuel ran out before
  the loop returned.
* `encoding/json`, `net/http`, `bufio` and `strings` are libraries, not part
  of the repository: the library functions the code calls are collected in
  `GoLib`, and the definitions are parametric in it.  `goLib` is a reference
  instance used to evaluate the code on concrete texts.
-/

namespace MiniAgent

/-! ## Data model -/

/-- Values of Go's `interface{}` as produced by `encoding/json`; numbers keep
their literal text. -/
inductive Json where
  | null : Json
  | bool (b : Bool) : Json
  | num (lit : String) : Json
  | str (s : String) : Json
  | arr (items : List Json) : Json
  | obj (fields : List (String × Json)) : Json

/-- Go's `map[string]interface{}`; the `nil` map is the empty list. -/
abbrev JsonMap := List (String × Json)

/-- Modelled from the spec: the declaration of `config.Message` is not among
the sources; the loops build it as `config.Message{Role: r, Content: c}` and
the spec gives it as `{role, content}`. -/
structure Message where
  Role : String
  Content : String
deriving DecidableEq, Repr

/-- Modelled from the spec: the `function` part of `config.ToolCall`, read by
the loops as `tc.Function.Name` and `tc.Function.Arguments`. -/
structure FunctionCall where
  Name : String
  Arguments : String
deriving DecidableEq, Repr

/-- Modelled from the spec: the declaration of `config.ToolCall` is not among
the sources; the spec gives it as `{id, function: {name, arguments}}`. -/
structure ToolCall where
  ID : String
  Function : FunctionCall
deriving DecidableEq, Repr

/-- Result triple `(string, []ToolCall, error)` of `ChatModel.Invoke`. -/
structure InvokeResult where
  content : String
  toolCalls : List ToolCall
  err : Option String

/-- The model gateway `config.ChatModel`: its `Invoke` method is an exchange
with an external backend whose state is `γ`. -/
structure ChatModel (γ : Type) where
  Invoke : List Message → List Json → γ → InvokeResult × γ

/-- One element of the `tools` array of a discovery payload
(`mcp/client.go`, the anonymous struct in `parseSSETools`). -/
structure ToolAnnouncement where
  Name : String
  Description : String
  InputSchema : JsonMap

/-- One element of the `content` array of an execution response
(`mcp/client.go`, the anonymous struct in `ExecuteTool`). -/
structure ContentEntry where
  Text : String
deriving DecidableEq, Repr

/-- An outgoing request built by `http.NewRequest` and `req.Header.Set`. -/
structure HttpRequest where
  Method : String
  URL : String
  Header : List (String × String)
  Body : String
deriving DecidableEq, Repr

/-- The part of `*http.Response` the code reads: the status and the body text. -/
structure HttpResponse where
  StatusCode : Nat
  Body : String
deriving DecidableEq, Repr

/-- The calls into Go's standard library made by the code, one field per call
and target type.
* `unmarshalArgs`: `json.Unmarshal` into `map[string]interface{}` (`Tool.Execute`);
* `unmarshalTask`: `json.Unmarshal` into `struct{Task string}`
  (`Supervisor.Invoke`), giving the field after the call and the error;
* `unmarshalTools`: `json.Unmarshal` into the `tools` struct (`parseSSETools`);
* `decodeContent`: `json.NewDecoder(body).Decode` into the `content` struct
  (`ExecuteTool`);
* `marshal`: `json.Marshal` (its error is dropped by `ExecuteTool`);
* `newRequest`: `http.NewRequest method url body`;
* `scanLines`: the successive `scanner.Text()` values of a `bufio.Scanner`
  over a response body. -/
structure GoLib where
  unmarshalArgs : String → Except String JsonMap
  unmarshalTask : String → String × Option String
  unmarshalTools : String → Except String (List ToolAnnouncement)
  decodeContent : String → Except String (List ContentEntry)
  marshal : Json → String
  newRequest : String → String → String → Except String HttpRequest
  scanLines : String → List String

/-! ## Package `tools` -/

/-- The type `ToolFunc` (`tools/base.go`): `func(args map[string]interface{}) string`. -/
abbrev ToolFunc (ω : Type) := JsonMap → ω → String × ω

/-- The struct `Tool` (`tools/base.go`). -/
structure Tool (ω : Type) where
  Name : String
  Description : String
  Parameters : JsonMap
  Func : ToolFunc ω

/-- The method `Tool.ToOpenAITool`. -/
def Tool.ToOpenAITool {ω : Type} (t : Tool ω) : Json :=
  Json.obj [
    ("type", Json.str "function"),
    ("function", Json.obj [
      ("name", Json.str t.Name),
      ("description", Json.str t.Description),
      ("parameters", Json.obj t.Parameters)])]

/-- The method `Tool.Execute`: decode the argument text, then call `Func`. -/
def Tool.Execute {ω : Type} (L : GoLib) (t : Tool ω) (argsJSON : String) (w : ω) :
    (String × Option String) × ω :=
  match L.unmarshalArgs argsJSON with
  | .error e => (("", some ("invalid argument: " ++ e)), w)
  | .ok args => (((t.Func args w).1, none), (t.Func args w).2)

/-- The loop of `ToolsToOpenAI`
(`for i, t := range tools { result[i] = t.ToOpenAITool() }`) from index `i` on. -/
def fillOpenAITools {ω : Type} : List (Tool ω) → Nat → List Json → List Json
  | [], _, result => result
  | t :: rest, i, result => fillOpenAITools rest (i + 1) (result.set i t.ToOpenAITool)

/-- The function `ToolsToOpenAI`: `result` is made with `len(tools)` entries,
each the `nil` map, and filled index by index. -/
def ToolsToOpenAI {ω : Type} (tools : List (Tool ω)) : List Json :=
  fillOpenAITools tools 0 (List.replicate tools.length (Json.obj []))

/-- The function `FindTool`: the first tool with the given name, or `nil`. -/
def FindTool {ω : Type} : List (Tool ω) → String → Option (Tool ω)
  | [], _ => none
  | t :: rest, name => if t.Name = name then some t else FindTool rest name

/-! ## Package `supervisor`: the agent loop -/

/-- The struct `Agent` (`supervisor/agent.go`). -/
structure Agent (γ ω : Type) where
  Name : String
  Prompt : String
  Model : ChatModel γ
  Tools : List (Tool ω)

/-- The inner loop of `Agent.Run` (`for _, tc := range toolCalls`): an unknown
name is skipped, a known tool is executed and its result appended as a
`tool` message; the error of `Execute` is dropped (`result, _ := ...`). -/
def Agent.runToolCalls {γ ω : Type} (L : GoLib) (a : Agent γ ω) :
    List ToolCall → List Message → ω → List Message × ω
  | [], messages, w => (messages, w)
  | tc :: rest, messages, w =>
    match FindTool a.Tools tc.Function.Name with
    | none => a.runToolCalls L rest messages w
    | some tool =>
      let r := tool.Execute L tc.Function.Arguments w
      a.runToolCalls L rest (messages ++ [⟨"tool", r.1.1⟩]) r.2

/-- Outcome of one iteration of a `for { ... }` loop of the supervisor
package: the function returns, or the loop goes on with a longer history. -/
inductive LoopStep where
  | done (result : String × Option String) : LoopStep
  | next (messages : List Message) : LoopStep

/-- One iteration of the outer loop of `Agent.Run`: call the model; return on a
gateway error or on a response without tool calls; otherwise append the
`assistant` message and run the tool calls. -/
def Agent.step {γ ω : Type} (L : GoLib) (a : Agent γ ω) (messages : List Message) (g : γ)
    (w : ω) : LoopStep × γ × ω :=
  let r := a.Model.Invoke messages (ToolsToOpenAI a.Tools) g
  match r.1.err with
  | some e => (.done ("", some e), r.2, w)
  | none =>
    if r.1.toolCalls.length = 0 then
      (.done (r.1.content, none), r.2, w)
    else
      let out := a.runToolCalls L r.1.toolCalls (messages ++ [⟨"assistant", r.1.content⟩]) w
      (.next out.1, r.2, out.2)

/-- The outer loop of `Agent.Run` (`for { ... }`), one iteration per unit of fuel. -/
def Agent.runLoop {γ ω : Type} (L : GoLib) (a : Agent γ ω) :
    Nat → List Message → γ → ω → Option ((String × Option String) × γ × ω)
  | 0, _, _, _ => none
  | fuel + 1, messages, g, w =>
    match a.step L messages g w with
    | (.done result, g1, w1) => some (result, g1, w1)
    | (.next messages1, g1, w1) => a.runLoop L fuel messages1 g1 w1

/-- The method `Agent.Run`: seed the history with the system prompt and the
task, then loop. -/
def Agent.Run {γ ω : Type} (L : GoLib) (a : Agent γ ω) (task : String) (fuel : Nat)
    (g : γ) (w : ω) : Option ((String × Option String) × γ × ω) :=
  a.runLoop L fuel [⟨"system", a.Prompt⟩, ⟨"user", task⟩] g w

/-- What one call of `ChatModel.Invoke` (`config/model.go`) can come back
with: a message of the model, or a failure (transport error, non-200 status,
undecodable body, no choice). -/
inductive GatewayReply where
  | message (content : String) (toolCalls : List ToolCall) : GatewayReply
  | failure (err : String) : GatewayReply

/-- The result triple of `ChatModel.Invoke` for a reply: the last statement is
`return msg.Content, msg.ToolCalls, nil`, and each failure is returned as
`return "", nil, err`. -/
def GatewayReply.result : GatewayReply → InvokeResult
  | .message content toolCalls => ⟨content, toolCalls, none⟩
  | .failure err => ⟨"", [], some err⟩

/-- A gateway that replays a script: its state is the number of calls made so
far, and the call number `n` comes back with `script n`. -/
def scriptedGateway (script : Nat → GatewayReply) : ChatModel Nat where
  Invoke := fun _ _ n => ((script n).result, n + 1)

/-- The agent `a` connected to the gateway replaying `script`. -/
def Agent.scripted {γ ω : Type} (a : Agent γ ω) (script : Nat → GatewayReply) :
    Agent Nat ω where
  Name := a.Name
  Prompt := a.Prompt
  Model := scriptedGateway script
  Tools := a.Tools

/-! ## Package `tools`: the booking tools (`tools/book.go`) -/

/-- The expression `args[key].(string)` with the `ok` flag dropped: the string
stored under `key`, or the empty string. -/
def stringArg (args : JsonMap) (key : String) : String :=
  match args.lookup key with
  | some (Json.str s) => s
  | _ => ""

/-- The function `BookHotel`. -/
def BookHotel {ω : Type} : ToolFunc ω := fun args w =>
  ("成功预定酒店: " ++ stringArg args "hotel_name", w)

/-- The variable `BookHotelTool`. -/
def BookHotelTool {ω : Type} : Tool ω where
  Name := "book_hotel"
  Description := "预定酒店，需要提供酒店名称"
  Parameters := [
    ("type", Json.str "object"),
    ("properties", Json.obj [
      ("hotel_name", Json.obj [
        ("type", Json.str "string"),
        ("description", Json.str "酒店名称")])]),
    ("required", Json.arr [Json.str "hotel_name"])]
  Func := BookHotel

/-- The function `BookFlight`. -/
def BookFlight {ω : Type} : ToolFunc ω := fun args w =>
  ("成功预定机票: " ++ stringArg args "from_airport" ++ " → " ++ stringArg args "to_airport", w)

/-- The variable `BookFlightTool`. -/
def BookFlightTool {ω : Type} : Tool ω where
  Name := "book_flight"
  Description := "预定机票，需要提供出发地和目的地"
  Parameters := [
    ("type", Json.str "object"),
    ("properties", Json.obj [
      ("from_airport", Json.obj [
        ("type", Json.str "string"),
        ("description", Json.str "出发机场")]),
      ("to_airport", Json.obj [
        ("type", Json.str "string"),
        ("description", Json.str "到达机场")])]),
    ("required", Json.arr [Json.str "from_airport", Json.str "to_airport"])]
  Func := BookFlight

/-- The factory `NewHotelAssistant`. -/
def NewHotelAssistant {γ ω : Type} (model : ChatModel γ) : Agent γ ω where
  Name := "hotel_assistant"
  Prompt := "你能帮助用户预定酒店。注意，你只需要回答用户有关酒店预定的问题，不需要对其他问题做任何回应或追问。"
  Model := model
  Tools := [BookHotelTool]

/-- The factory `NewFlightAssistant`. -/
def NewFlightAssistant {γ ω : Type} (model : ChatModel γ) : Agent γ ω where
  Name := "flight_assistant"
  Prompt := "你能帮助用户预定机票。注意，你只需要回答用户有关机票预定的问题，不需要对其他问题做任何回应或追问。"
  Model := model
  Tools := [BookFlightTool]

/-! ## Package `supervisor`: the supervisor loop (`supervisor/workflow.go`) -/

/-- The struct `SupervisorWorkflow`. -/
structure SupervisorWorkflow (γ ω : Type) where
  agents : List (Agent γ ω)
  model : ChatModel γ
  prompt : String

/-- The struct `Supervisor`. -/
structure Supervisor (γ ω : Type) where
  Agents : List (Agent γ ω)
  Model : ChatModel γ
  Prompt : String

/-- The function `CreateSupervisor`. -/
def CreateSupervisor {γ ω : Type} (agents : List (Agent γ ω)) (model : ChatModel γ)
    (prompt : String) : SupervisorWorkflow γ ω :=
  { agents := agents, model := model, prompt := prompt }

/-- The method `SupervisorWorkflow.Compile`. -/
def SupervisorWorkflow.Compile {γ ω : Type} (wf : SupervisorWorkflow γ ω) : Supervisor γ ω :=
  { Agents := wf.agents, Model := wf.model, Prompt := wf.prompt }

/-- The method `Supervisor.agentToTool`. -/
def Supervisor.agentToTool {γ ω : Type} (_s : Supervisor γ ω) (agent : Agent γ ω) : Json :=
  Json.obj [
    ("type", Json.str "function"),
    ("function", Json.obj [
      ("name", Json.str agent.Name),
      ("description", Json.str ("委派任务给 " ++ agent.Name ++ ": " ++ agent.Prompt)),
      ("parameters", Json.obj [
        ("type", Json.str "object"),
        ("properties", Json.obj [
          ("task", Json.obj [
            ("type", Json.str "string"),
            ("description", Json.str "要委派给该助手的任务描述")])]),
        ("required", Json.arr [Json.str "task"])])])]

/-- The method `Supervisor.buildTools`. -/
def Supervisor.buildTools {γ ω : Type} (s : Supervisor γ ω) : List Json :=
  s.Agents.map s.agentToTool

/-- The loop of `Supervisor.findAgent` over a roster. -/
def findAgentIn {γ ω : Type} : List (Agent γ ω) → String → Option (Agent γ ω)
  | [], _ => none
  | a :: rest, name => if a.Name = name then some a else findAgentIn rest name

/-- The method `Supervisor.findAgent`: the first agent with the given name, or `nil`. -/
def Supervisor.findAgent {γ ω : Type} (s : Supervisor γ ω) (name : String) :
    Option (Agent γ ω) :=
  findAgentIn s.Agents name

/-- The text a delegation contributes: the worker's answer, or the failure
prefix followed by the worker's error
(`if err != nil { result = "执行失败: " + err.Error() }`). -/
def delegationResult (r : String × Option String) : String :=
  match r.2 with
  | some e => "执行失败: " ++ e
  | none => r.1

/-- The inner loop of `Supervisor.Invoke` (`for _, tc := range toolCalls`): an
unknown name is skipped; otherwise the task is decoded (decoding errors are
dropped), the worker is run with `workerFuel` iterations at its disposal, and
the outcome is appended as a `tool` message.  `none`: a worker did not return
within its fuel. -/
def Supervisor.delegate {γ ω : Type} (L : GoLib) (s : Supervisor γ ω) (workerFuel : Nat) :
    List ToolCall → List Message → γ → ω → Option (List Message × γ × ω)
  | [], messages, g, w => some (messages, g, w)
  | tc :: rest, messages, g, w =>
    match s.findAgent tc.Function.Name with
    | none => s.delegate L workerFuel rest messages g w
    | some agent =>
      match agent.Run L (L.unmarshalTask tc.Function.Arguments).1 workerFuel g w with
      | none => none
      | some (r, g1, w1) =>
        s.delegate L workerFuel rest (messages ++ [⟨"tool", delegationResult r⟩]) g1 w1

/-- One iteration of the outer loop of `Supervisor.Invoke`: call the model;
return on a gateway error or on a response without tool calls; otherwise
append the `assistant` message and run the delegations.  `none`: a worker did
not return within its fuel. -/
def Supervisor.step {γ ω : Type} (L : GoLib) (s : Supervisor γ ω) (workerFuel : Nat)
    (messages : List Message) (g : γ) (w : ω) : Option (LoopStep × γ × ω) :=
  let r := s.Model.Invoke messages s.buildTools g
  match r.1.err with
  | some e => some (.done ("", some e), r.2, w)
  | none =>
    if r.1.toolCalls.length = 0 then
      some (.done (r.1.content, none), r.2, w)
    else
      match s.delegate L workerFuel r.1.toolCalls
          (messages ++ [⟨"assistant", r.1.content⟩]) r.2 w with
      | none => none
      | some (messages1, g1, w1) => some (.next messages1, g1, w1)

/-- The outer loop of `Supervisor.Invoke` (`for { ... }`), one iteration per
unit of fuel. -/
def Supervisor.invokeLoop {γ ω : Type} (L : GoLib) (s : Supervisor γ ω) (workerFuel : Nat) :
    Nat → List Message → γ → ω → Option ((String × Option String) × γ × ω)
  | 0, _, _, _ => none
  | fuel + 1, messages, g, w =>
    match s.step L workerFuel messages g w with
    | none => none
    | some (.done result, g1, w1) => some (result, g1, w1)
    | some (.next messages1, g1, w1) => s.invokeLoop L workerFuel fuel messages1 g1 w1

/-- The method `Supervisor.Invoke`. -/
def Supervisor.Invoke {γ ω : Type} (L : GoLib) (s : Supervisor γ ω) (userMessage : String)
    (workerFuel fuel : Nat) (g : γ) (w : ω) : Option ((String × Option String) × γ × ω) :=
  s.invokeLoop L workerFuel fuel [⟨"system", s.Prompt⟩, ⟨"user", userMessage⟩] g w

/-! ## Package `mcp`: the remote tool client (`mcp/client.go`) -/

/-- The call `strings.HasPrefix s p`. -/
def HasPrefix (s p : String) : Bool := p.data.isPrefixOf s.data

/-- The call `strings.TrimPrefix s p`. -/
def TrimPrefix (s p : String) : String :=
  if HasPrefix s p then String.mk (s.data.drop p.data.length) else s

/-- The struct `MCPClient`; `client` is the exchange `c.client.Do(req)` with
the remote service. -/
structure MCPClient (ω : Type) where
  Name : String
  URL : String
  Headers : List (String × String)
  Transport : String
  client : HttpRequest → ω → Except String HttpResponse × ω

/-- The call `req.Header.Set(k, v)`. -/
def HttpRequest.setHeader (req : HttpRequest) (k v : String) : HttpRequest :=
  { req with Header := (k, v) :: req.Header.filter (fun kv => kv.1 != k) }

/-- The loop `for k, v := range c.Headers { req.Header.Set(k, v) }`. -/
def HttpRequest.setHeaders (req : HttpRequest) : List (String × String) → HttpRequest
  | [] => req
  | (k, v) :: rest => (req.setHeader k v).setHeaders rest

/-- The method `MCPClient.ExecuteTool`; a `nil` argument map and an empty one
are not told apart in the request body. -/
def MCPClient.ExecuteTool {ω : Type} (L : GoLib) (c : MCPClient ω) (toolName : String)
    (args : JsonMap) (w : ω) : (String × Option String) × ω :=
  let reqBody := Json.obj [
    ("method", Json.str "tools/call"),
    ("params", Json.obj [
      ("name", Json.str toolName),
      ("arguments", Json.obj args)])]
  match L.newRequest "POST" c.URL (L.marshal reqBody) with
  | .error e => (("", some e), w)
  | .ok req =>
    let r := c.client ((req.setHeader "Content-Type" "application/json").setHeaders c.Headers) w
    match r.1 with
    | .error e => (("", some e), r.2)
    | .ok resp =>
      match L.decodeContent resp.Body with
      | .error e => (("", some e), r.2)
      | .ok content =>
        match content with
        | first :: _ => ((first.Text, none), r.2)
        | [] => (("", none), r.2)

/-- The method `MCPClient.createToolExecutor`. -/
def MCPClient.createToolExecutor {ω : Type} (L : GoLib) (c : MCPClient ω) (toolName : String) :
    ToolFunc ω := fun args w =>
  let r := c.ExecuteTool L toolName args w
  match r.1.2 with
  | some e => ("工具执行失败: " ++ e, r.2)
  | none => (r.1.1, r.2)

/-- The inner loop of `parseSSETools`
(`for _, t := range toolsResponse.Tools { mcpTools = append(mcpTools, ...) }`). -/
def MCPClient.appendTools {ω : Type} (L : GoLib) (c : MCPClient ω) :
    List ToolAnnouncement → List (Tool ω) → List (Tool ω)
  | [], mcpTools => mcpTools
  | t :: rest, mcpTools =>
    c.appendTools L rest (mcpTools ++ [{
      Name := t.Name,
      Description := t.Description,
      Parameters := t.InputSchema,
      Func := c.createToolExecutor L t.Name }])

/-- The outer loop of `parseSSETools` (`for scanner.Scan() { ... }`) over the
scanned lines. -/
def MCPClient.scanTools {ω : Type} (L : GoLib) (c : MCPClient ω) :
    List String → List (Tool ω) → List (Tool ω)
  | [], mcpTools => mcpTools
  | line :: rest, mcpTools =>
    if HasPrefix line "data: " then
      match L.unmarshalTools (TrimPrefix line "data: ") with
      | .error _ => c.scanTools L rest mcpTools
      | .ok tools => c.scanTools L rest (c.appendTools L tools mcpTools)
    else
      c.scanTools L rest mcpTools

/-- The method `MCPClient.parseSSETools`. -/
def MCPClient.parseSSETools {ω : Type} (L : GoLib) (c : MCPClient ω) (resp : HttpResponse) :
    List (Tool ω) × Option String :=
  (c.scanTools L (L.scanLines resp.Body) [], none)

/-! ## A reference instance of the library functions

`goLib` follows the documented behaviour of `encoding/json`, `net/http` and
`bufio` closely enough to run the code on concrete texts.  The scanner has
the token-size limit of `bufio.Scanner`.  In the decoders the error messages
are generic, a type mismatch ends decoding at once (Go goes on and reports the
first mismatch at the end, which the callers cannot tell apart), numbers are
not checked against the range of `float64`, and the nesting depth is not
bounded; `marshal` keeps the field order and escapes only quotes and
backslashes. -/

namespace Ref

/-- JSON insignificant whitespace. -/
def isSpace (c : Char) : Bool := c = ' ' || c = '\t' || c = '\n' || c = '\r'

/-- Drop leading whitespace. -/
def skipSpace : List Char → List Char
  | [] => []
  | c :: cs => if isSpace c then skipSpace cs else c :: cs

/-- Value of a hexadecimal digit. -/
def hexDigit (c : Char) : Option Nat :=
  if '0' ≤ c ∧ c ≤ '9' then some (c.toNat - 48)
  else if 'a' ≤ c ∧ c ≤ 'f' then some (c.toNat - 87)
  else if 'A' ≤ c ∧ c ≤ 'F' then some (c.toNat - 55)
  else none

/-- The character denoted by a one-letter escape. -/
def escapeChar (c : Char) : Option Char :=
  if c = '"' then some '"'
  else if c = '\\' then some '\\'
  else if c = '/' then some '/'
  else if c = 'b' then some (Char.ofNat 8)
  else if c = 'f' then some (Char.ofNat 12)
  else if c = 'n' then some '\n'
  else if c = 'r' then some '\r'
  else if c = 't' then some '\t'
  else none

/-- The code point of a four-digit escape. -/
def hex4 (a b c d : Char) : Option Nat :=
  match hexDigit a, hexDigit b, hexDigit c, hexDigit d with
  | some x, some y, some z, some u => some (((x * 16 + y) * 16 + z) * 16 + u)
  | _, _, _, _ => none

/-- The character of a four-digit escape with code `v`, given the code of the
four-digit escape that follows it, if one does: a surrogate pair is one
character (and uses up the second escape), a lone surrogate is replaced by
U+FFFD. -/
def escapedChar (v : Nat) (following : Option Nat) : Char × Bool :=
  if 0xD800 ≤ v ∧ v < 0xDC00 then
    match following with
    | some lo =>
      if 0xDC00 ≤ lo ∧ lo < 0xE000 then
        (Char.ofNat (0x10000 + (v - 0xD800) * 0x400 + (lo - 0xDC00)), true)
      else (Char.ofNat 0xFFFD, false)
    | none => (Char.ofNat 0xFFFD, false)
  else if 0xDC00 ≤ v ∧ v < 0xE000 then (Char.ofNat 0xFFFD, false)
  else (Char.ofNat v, false)

/-- The code of the four-digit escape at the head of the input, if any. -/
def followingEscape : List Char → Option Nat
  | '\\' :: 'u' :: a :: b :: x :: d :: _ => hex4 a b x d
  | _ => none

/-- The rest of a string literal after its opening quote; `acc` holds the
characters read so far, last first. -/
def stringBody : Nat → List Char → List Char → Option (String × List Char)
  | 0, _, _ => none
  | _ + 1, [], _ => none
  | n + 1, c :: cs, acc =>
    if c = '"' then some (String.mk acc.reverse, cs)
    else if c = '\\' then
      match cs with
      | 'u' :: a :: b :: x :: d :: rest =>
        match hex4 a b x d with
        | some v =>
          if (escapedChar v (followingEscape rest)).2 then
            stringBody n (rest.drop 6) ((escapedChar v (followingEscape rest)).1 :: acc)
          else stringBody n rest ((escapedChar v (followingEscape rest)).1 :: acc)
        | none => none
      | e :: rest =>
        match escapeChar e with
        | some ch => stringBody n rest (ch :: acc)
        | none => none
      | [] => none
    else if c.toNat < 32 then none
    else stringBody n cs (c :: acc)

/-- A nonempty run of digits, with the rest of the input. -/
def digits (cs : List Char) : Option (List Char × List Char) :=
  if (cs.span Char.isDigit).1 = [] then none else some (cs.span Char.isDigit)

/-- A number literal: sign, integer part without a leading zero, fraction,
exponent. -/
def number (cs : List Char) : Option (String × List Char) :=
  let signed := match cs with
    | '-' :: r => (['-'], r)
    | _ => ([], cs)
  match digits signed.2 with
  | none => none
  | some (ip, r1) =>
    if ip.head? = some '0' ∧ 1 < ip.length then none
    else
      let frac : Option (List Char × List Char) := match r1 with
        | '.' :: r => (digits r).map (fun p => ('.' :: p.1, p.2))
        | _ => some ([], r1)
      match frac with
      | none => none
      | some (fp, r2) =>
        let expo : Option (List Char × List Char) := match r2 with
          | 'e' :: '+' :: r => (digits r).map (fun p => ('e' :: '+' :: p.1, p.2))
          | 'e' :: '-' :: r => (digits r).map (fun p => ('e' :: '-' :: p.1, p.2))
          | 'e' :: r => (digits r).map (fun p => ('e' :: p.1, p.2))
          | 'E' :: '+' :: r => (digits r).map (fun p => ('E' :: '+' :: p.1, p.2))
          | 'E' :: '-' :: r => (digits r).map (fun p => ('E' :: '-' :: p.1, p.2))
          | 'E' :: r => (digits r).map (fun p => ('E' :: p.1, p.2))
          | _ => some ([], r2)
        match expo with
        | none => none
        | some (ep, r3) => some (String.mk (signed.1 ++ ip ++ fp ++ ep), r3)

mutual
/-- One JSON value at the head of the input, with the rest of the input. -/
def value : Nat → List Char → Option (Json × List Char)
  | 0, _ => none
  | n + 1, cs =>
    match skipSpace cs with
    | '{' :: rest =>
      match skipSpace rest with
      | '}' :: r => some (Json.obj [], r)
      | r => members n r []
    | '[' :: rest =>
      match skipSpace rest with
      | ']' :: r => some (Json.arr [], r)
      | r => elements n r []
    | '"' :: rest => (stringBody rest.length rest []).map (fun p => (Json.str p.1, p.2))
    | 't' :: 'r' :: 'u' :: 'e' :: r => some (Json.bool true, r)
    | 'f' :: 'a' :: 'l' :: 's' :: 'e' :: r => some (Json.bool false, r)
    | 'n' :: 'u' :: 'l' :: 'l' :: r => some (Json.null, r)
    | r => (number r).map (fun p => (Json.num p.1, p.2))
/-- The elements of an array after its opening bracket; `acc` holds the
elements read so far, last first. -/
def elements : Nat → List Char → List Json → Option (Json × List Char)
  | 0, _, _ => none
  | n + 1, cs, acc =>
    match value n cs with
    | none => none
    | some (v, r) =>
      match skipSpace r with
      | ',' :: r1 => elements n r1 (v :: acc)
      | ']' :: r1 => some (Json.arr (v :: acc).reverse, r1)
      | _ => none
/-- The members of an object after its opening brace; `acc` holds the members
read so far, last first. -/
def members : Nat → List Char → List (String × Json) → Option (Json × List Char)
  | 0, _, _ => none
  | n + 1, cs, acc =>
    match skipSpace cs with
    | '"' :: r =>
      match stringBody r.length r [] with
      | none => none
      | some (k, r1) =>
        match skipSpace r1 with
        | ':' :: r2 =>
          match value n r2 with
          | none => none
          | some (v, r3) =>
            match skipSpace r3 with
            | ',' :: r4 => members n r4 ((k, v) :: acc)
            | '}' :: r4 => some (Json.obj ((k, v) :: acc).reverse, r4)
            | _ => none
        | _ => none
    | _ => none
end

/-- The decoding done by `json.Unmarshal`: the whole text is one value. -/
def parseDocument (text : String) : Except String Json :=
  match skipSpace text.data with
  | [] => .error "unexpected end of JSON input"
  | cs =>
    match value (2 * cs.length + 2) cs with
    | none => .error "invalid JSON syntax"
    | some (v, rest) =>
      if (skipSpace rest).isEmpty then .ok v
      else .error "invalid character after top-level value"

/-- The decoding done by `Decoder.Decode`: the first value of the stream. -/
def parseFirst (text : String) : Except String Json :=
  match skipSpace text.data with
  | [] => .error "EOF"
  | cs =>
    match value (2 * cs.length + 2) cs with
    | none => .error "invalid JSON syntax"
    | some (v, _) => .ok v

/-- The letter a character stands for in the key comparison of the struct
decoder: case is ignored, and U+212A (Kelvin sign) and U+017F (long s) count
as `k` and `s`. -/
def foldChar (c : Char) : Char :=
  if c.toNat = 0x212A then 'k' else if c.toNat = 0x17F then 's' else c.toLower

/-- Key comparison of the struct decoder: equal up to letter case. -/
def foldEq (a b : String) : Bool := a.data.map foldChar == b.data.map foldChar

/-- Storing a member into a Go map: a repeated key replaces the earlier entry. -/
def mapInsert (m : JsonMap) (k : String) (v : Json) : JsonMap :=
  m.filter (fun kv => kv.1 != k) ++ [(k, v)]

mutual
/-- The value as `interface{}`: objects become maps. -/
def canon : Json → Json
  | .null => .null
  | .bool b => .bool b
  | .num l => .num l
  | .str s => .str s
  | .arr items => .arr (canonList items)
  | .obj fields => .obj (canonFields fields [])
/-- Elementwise `canon`. -/
def canonList : List Json → List Json
  | [] => []
  | x :: xs => canon x :: canonList xs
/-- The members of an object stored one after the other into a map. -/
def canonFields : List (String × Json) → JsonMap → JsonMap
  | [], m => m
  | (k, v) :: rest, m => canonFields rest (mapInsert m k (canon v))
end

/-- Type mismatch reported by the decoder. -/
def typeError : String := "json: cannot unmarshal value into Go value of the target type"

/-- Decoding into a `string` variable holding `cur`. -/
def intoString (cur : String) : Json → Except String String
  | .str s => .ok s
  | .null => .ok cur
  | _ => .error typeError

/-- Decoding into a `map[string]interface{}` variable holding `cur`. -/
def intoMap (cur : JsonMap) : Json → Except String JsonMap
  | .obj fields => .ok (canonFields fields cur)
  | .null => .ok cur
  | _ => .error typeError

/-- `json.Unmarshal` into `map[string]interface{}`. -/
def unmarshalArgs (text : String) : Except String JsonMap :=
  match parseDocument text with
  | .error e => .error e
  | .ok v => intoMap [] v

/-- The members of an object decoded into `struct{Task string}`; a mismatch is
recorded and decoding goes on. -/
def taskFields : List (String × Json) → String × Option String → String × Option String
  | [], st => st
  | (k, v) :: rest, st =>
    if foldEq k "task" then
      match intoString st.1 v with
      | .ok s => taskFields rest (s, st.2)
      | .error e => taskFields rest (st.1, st.2.orElse (fun _ => some e))
    else taskFields rest st

/-- `json.Unmarshal` into `struct{Task string}`: the field and the error. -/
def unmarshalTask (text : String) : String × Option String :=
  match parseDocument text with
  | .error e => ("", some e)
  | .ok (.obj fields) => taskFields fields ("", none)
  | .ok .null => ("", none)
  | .ok _ => ("", some typeError)

/-- The members of an object decoded into one element of `tools`. -/
def toolFields : List (String × Json) → ToolAnnouncement → Except String ToolAnnouncement
  | [], t => .ok t
  | (k, v) :: rest, t =>
    if foldEq k "name" then
      match intoString t.Name v with
      | .ok s => toolFields rest { t with Name := s }
      | .error e => .error e
    else if foldEq k "description" then
      match intoString t.Description v with
      | .ok s => toolFields rest { t with Description := s }
      | .error e => .error e
    else if foldEq k "inputSchema" then
      match intoMap t.InputSchema v with
      | .ok m => toolFields rest { t with InputSchema := m }
      | .error e => .error e
    else toolFields rest t

/-- The elements of an array decoded into the `tools` slice. -/
def toolItems : List Json → Except String (List ToolAnnouncement)
  | [] => .ok []
  | .obj fields :: rest =>
    match toolFields fields ⟨"", "", []⟩, toolItems rest with
    | .ok t, .ok ts => .ok (t :: ts)
    | .error e, _ => .error e
    | _, .error e => .error e
  | .null :: rest =>
    match toolItems rest with
    | .ok ts => .ok (⟨"", "", []⟩ :: ts)
    | .error e => .error e
  | _ :: _ => .error typeError

/-- The members of an object decoded into the struct with the `tools` field. -/
def toolsFields : List (String × Json) → List ToolAnnouncement →
    Except String (List ToolAnnouncement)
  | [], cur => .ok cur
  | (k, v) :: rest, cur =>
    if foldEq k "tools" then
      match v with
      | .arr items =>
        match toolItems items with
        | .ok ts => toolsFields rest ts
        | .error e => .error e
      | .null => toolsFields rest cur
      | _ => .error typeError
    else toolsFields rest cur

/-- `json.Unmarshal` into the struct with the `tools` field. -/
def unmarshalTools (text : String) : Except String (List ToolAnnouncement) :=
  match parseDocument text with
  | .error e => .error e
  | .ok (.obj fields) => toolsFields fields []
  | .ok .null => .ok []
  | .ok _ => .error typeError

/-- The members of an object decoded into one element of `content`. -/
def entryFields : List (String × Json) → ContentEntry → Except String ContentEntry
  | [], c => .ok c
  | (k, v) :: rest, c =>
    if foldEq k "text" then
      match intoString c.Text v with
      | .ok s => entryFields rest ⟨s⟩
      | .error e => .error e
    else entryFields rest c

/-- The elements of an array decoded into the `content` slice. -/
def entryItems : List Json → Except String (List ContentEntry)
  | [] => .ok []
  | .obj fields :: rest =>
    match entryFields fields ⟨""⟩, entryItems rest with
    | .ok c, .ok cs => .ok (c :: cs)
    | .error e, _ => .error e
    | _, .error e => .error e
  | .null :: rest =>
    match entryItems rest with
    | .ok cs => .ok (⟨""⟩ :: cs)
    | .error e => .error e
  | _ :: _ => .error typeError

/-- The members of an object decoded into the struct with the `content` field. -/
def contentFields : List (String × Json) → List ContentEntry →
    Except String (List ContentEntry)
  | [], cur => .ok cur
  | (k, v) :: rest, cur =>
    if foldEq k "content" then
      match v with
      | .arr items =>
        match entryItems items with
        | .ok cs => contentFields rest cs
        | .error e => .error e
      | .null => contentFields rest cur
      | _ => .error typeError
    else contentFields rest cur

/-- `Decoder.Decode` into the struct with the `content` field. -/
def decodeContent (text : String) : Except String (List ContentEntry) :=
  match parseFirst text with
  | .error e => .error e
  | .ok (.obj fields) => contentFields fields []
  | .ok .null => .ok []
  | .ok _ => .error typeError

/-- A string literal of the encoder (quotes and backslashes escaped). -/
def quote (s : String) : String :=
  "\"" ++ String.join (s.data.map (fun c =>
    if c = '"' then "\\\"" else if c = '\\' then "\\\\" else String.singleton c)) ++ "\""

mutual
/-- The text of a value. -/
def render : Json → String
  | .null => "null"
  | .bool b => if b then "true" else "false"
  | .num l => l
  | .str s => quote s
  | .arr items => "[" ++ renderItems items ++ "]"
  | .obj fields => "\x7b" ++ renderFields fields ++ "\x7d"
/-- The elements of an array, separated by commas. -/
def renderItems : List Json → String
  | [] => ""
  | [x] => render x
  | x :: y :: rest => render x ++ "," ++ renderItems (y :: rest)
/-- The members of an object, separated by commas. -/
def renderFields : List (String × Json) → String
  | [] => ""
  | [(k, v)] => quote k ++ ":" ++ render v
  | (k, v) :: kv :: rest => quote k ++ ":" ++ render v ++ "," ++ renderFields (kv :: rest)
end

/-- `http.NewRequest`: fails on a URL with a control character. -/
def newRequest (method url body : String) : Except String HttpRequest :=
  if url.data.any (fun c => c.toNat < 32 || c.toNat = 127) then
    .error ("parse " ++ quote url ++ ": net/url: invalid control character in URL")
  else .ok ⟨method, url, [], body⟩

/-- A scanned line: the characters read (last first) without a final
carriage return. -/
def lineOf : List Char → String
  | '\r' :: cur => String.mk cur.reverse
  | cur => String.mk cur.reverse

/-- The constant `bufio.MaxScanTokenSize`, the largest buffer a scanner
allocates by default. -/
def maxScanTokenSize : Nat := 64 * 1024

/-- The tokens a `bufio.Scanner` with `bufio.ScanLines` delivers; `cur` holds
the current line, last character first, and `size` its length in bytes.  A
line is delivered when its newline (or the end of the input) is met before
`maxScanTokenSize` bytes of it are buffered; otherwise `Scan` reports false
(the error is `ErrTooLong`, to be read from `scanner.Err()`) and nothing more
is delivered. -/
def splitLines : List Char → List Char → Nat → List String
  | [], [], _ => []
  | [], cur, _ => [lineOf cur]
  | c :: cs, cur, size =>
    if c = '\n' then lineOf cur :: splitLines cs [] 0
    else if maxScanTokenSize ≤ size + c.utf8Size then []
    else splitLines cs (c :: cur) (size + c.utf8Size)

end Ref

/-- The reference instance of the library functions. -/
def goLib : GoLib where
  unmarshalArgs := Ref.unmarshalArgs
  unmarshalTask := Ref.unmarshalTask
  unmarshalTools := Ref.unmarshalTools
  decodeContent := Ref.decodeContent
  marshal := Ref.render
  newRequest := Ref.newRequest
  scanLines := fun body => Ref.splitLines body.data [] 0


/-! ## Notions used to state the properties -/

/-- The name of the tool call is the name of some tool in the agent's tool
list. -/
def Agent.resolves {γ ω : Type} (a : Agent γ ω) (tc : ToolCall) : Bool :=
  a.Tools.any (fun t => t.Name == tc.Function.Name)

/-- The name of the tool call is the name of some agent in the supervisor's
roster. -/
def Supervisor.resolves {γ ω : Type} (s : Supervisor γ ω) (tc : ToolCall) : Bool :=
  s.Agents.any (fun agent => agent.Name == tc.Function.Name)

/-! ## A concrete configuration (`main.go`) and a scripted session -/

/-- The supervisor built by `main`: the hotel and the flight assistant, all
three sharing one model. -/
def mainSupervisor {γ ω : Type} (model : ChatModel γ) : Supervisor γ ω :=
  (CreateSupervisor [NewHotelAssistant model, NewFlightAssistant model] model
    ("您是团队主管，负责管理酒店预订助手和机票预订助手。" ++
      "如需预定酒店，请交由 hotel_assistant 处理。" ++
      "如需预定机票，请交由 flight_assistant 处理。" ++
      "**注意**，你每次最多只能调用一个助理！")).Compile

/-- A session of the shared gateway: the supervisor delegates to the hotel
assistant (and, in the same response, to an assistant that does not exist);
the hotel assistant asks for `book_hotel`, then answers `Done`; the supervisor
answers `Booked`; whatever follows is a plain answer. -/
def bookingScript : Nat → GatewayReply
  | 0 => .message "" [
      ⟨"call_1", ⟨"hotel_assistant", "\x7b\"task\":\"book hotel X\"\x7d"⟩⟩,
      ⟨"call_2", ⟨"taxi_assistant", "\x7b\"task\":\"to the hotel\"\x7d"⟩⟩]
  | 1 => .message "" [⟨"call_3", ⟨"book_hotel", "\x7b\"hotel_name\":\"X\"\x7d"⟩⟩]
  | 2 => .message "Done" []
  | 3 => .message "Booked" []
  | _ => .message "" []

/-- A session of the shared gateway in which the worker's call fails: the
supervisor delegates to the hotel assistant, the assistant's call to the
model fails, the supervisor answers `Sorry`. -/
def failingWorkerScript : Nat → GatewayReply
  | 0 => .message "" [⟨"call_1", ⟨"hotel_assistant", "\x7b\"task\":\"book hotel X\"\x7d"⟩⟩]
  | 1 => .failure "API error: boom"
  | 2 => .message "Sorry" []
  | _ => .message "" []

/-- A response asking for `book_hotel` with an argument text cut short. -/
def truncatedArgsScript : Nat → GatewayReply
  | 0 => .message "" [⟨"call_1", ⟨"book_hotel", "\x7b\"hotel_name\":\"X"⟩⟩]
  | _ => .message "Done" []

/-- The tools announced by one line of a discovery stream, in the spec's
words: those of the payload when the line starts with `data: ` and the payload
decodes as `{tools: [{name, description, inputSchema}, ...]}`, none otherwise. -/
def announcement (L : GoLib) (line : String) : List ToolAnnouncement :=
  if HasPrefix line "data: " then
    match L.unmarshalTools (TrimPrefix line "data: ") with
    | .ok tools => tools
    | .error _ => []
  else []

/-- The tools announced by a discovery stream, in the spec's words: those of
its lines, in stream order. -/
def announcedTools (L : GoLib) : List String → List ToolAnnouncement
  | [] => []
  | line :: rest => announcement L line ++ announcedTools L rest

/-- The registry entry `parseSSETools` builds for an announced tool. -/
def MCPClient.toolOf {ω : Type} (L : GoLib) (c : MCPClient ω) (t : ToolAnnouncement) : Tool ω where
  Name := t.Name
  Description := t.Description
  Parameters := t.InputSchema
  Func := c.createToolExecutor L t.Name

/-- A provider that answers every request with the given body. -/
def fixedProvider (body : String) : MCPClient Unit where
  Name := "provider"
  URL := "http://localhost/sse"
  Headers := []
  Transport := "sse"
  client := fun _ w => (.ok ⟨200, body⟩, w)

/-- A provider that cannot be reached. -/
def unreachableProvider : MCPClient Unit where
  Name := "provider"
  URL := "http://localhost/sse"
  Headers := []
  Transport := "sse"
  client := fun _ w => (.error "connection refused", w)

/-- A discovery stream with an endpoint event and a tool announcement. -/
def discoveryStream : String :=
  "event: endpoint\ndata: /message?sessionId=1\n\n" ++
  "event: message\n" ++
  "data: \x7b\"tools\":[\x7b\"name\":\"search\",\"description\":\"web search\"," ++
  "\"inputSchema\":\x7b\"type\":\"object\"\x7d\x7d]\x7d\n\n"

/-- A response asking the hotel assistant for `book_flight`, which is not
among its tools, and then for `book_hotel`, which is. -/
def mixedCallsScript : Nat → GatewayReply
  | 0 => .message "" [
      ⟨"call_1", ⟨"book_flight", "\x7b\"from_airport\":\"PEK\",\"to_airport\":\"SHA\"\x7d"⟩⟩,
      ⟨"call_2", ⟨"book_hotel", "\x7b\"hotel_name\":\"X\"\x7d"⟩⟩]
  | _ => .message "Done" []

/-- A line of a discovery stream announcing the tool `a`. -/
def announcementLineA : String :=
  "data: \x7b\"tools\":[\x7b\"name\":\"a\",\"description\":\"first tool\"\x7d]\x7d"

/-- A line of a discovery stream announcing the tool `b`. -/
def announcementLineB : String :=
  "data: \x7b\"tools\":[\x7b\"name\":\"b\",\"description\":\"second tool\"\x7d]\x7d"

/-- A discovery stream of three lines, each ended by a newline: the
announcement of `a`, a `data: ` line with a payload of 70000 bytes that is not
a tool list, and the announcement of `b`. -/
def overlongChars : List Char :=
  announcementLineA.data ++ '\n' ::
    ("data: ".data ++ (List.replicate 70000 'x' ++ '\n' ::
      (announcementLineB.data ++ ['\n'])))

/-- The stream of `overlongChars` as a response body. -/
def overlongStream : String := String.mk overlongChars

/-! # Theorems -/

/-! ## The agent loop against a scripted gateway -/

section Scripted

variable {γ ω : Type} (L : GoLib) (a : Agent γ ω) (script : Nat → GatewayReply)

/-- One iteration against the script when the response carries tool calls. -/
theorem runLoop_scripted_step (fuel : Nat) (messages : List Message) (n : Nat) (w : ω)
    (h : (script n).result.toolCalls ≠ []) :
    (a.scripted script).runLoop L (fuel + 1) messages n w =
      (a.scripted script).runLoop L fuel
        ((a.scripted script).runToolCalls L (script n).result.toolCalls
          (messages ++ [⟨"assistant", (script n).result.content⟩]) w).1
        (n + 1)
        ((a.scripted script).runToolCalls L (script n).result.toolCalls
          (messages ++ [⟨"assistant", (script n).result.content⟩]) w).2 := by
  cases hs : script n with
  | failure e => simp [hs, GatewayReply.result] at h
  | message c tcs =>
    have htcs : tcs ≠ [] := by simpa [hs, GatewayReply.result] using h
    simp [Agent.runLoop, Agent.step, Agent.scripted, scriptedGateway, hs, GatewayReply.result, htcs]

/-- One iteration against the script when the response carries no tool call. -/
theorem runLoop_scripted_stop (fuel : Nat) (messages : List Message) (n : Nat) (w : ω)
    (h : (script n).result.toolCalls = []) :
    (a.scripted script).runLoop L (fuel + 1) messages n w =
      some (((script n).result.content, (script n).result.err), n + 1, w) := by
  cases hs : script n with
  | failure e => simp [Agent.runLoop, Agent.step, Agent.scripted, scriptedGateway, hs, GatewayReply.result]
  | message c tcs =>
    have htcs : tcs = [] := by simpa [hs, GatewayReply.result] using h
    simp [Agent.runLoop, Agent.step, Agent.scripted, scriptedGateway, hs, GatewayReply.result, htcs]

/-- While the responses carry tool calls the loop uses up its fuel. -/
theorem runLoop_scripted_none (fuel : Nat) :
    ∀ (messages : List Message) (n : Nat) (w : ω),
      (∀ j, j < fuel → (script (n + j)).result.toolCalls ≠ []) →
      (a.scripted script).runLoop L fuel messages n w = none := by
  induction fuel with
  | zero => intro messages n w _; rfl
  | succ fuel ih =>
    intro messages n w h
    rw [runLoop_scripted_step L a script fuel messages n w (by simpa using h 0 (Nat.succ_pos _))]
    apply ih
    intro j hj
    have := h (j + 1) (Nat.succ_lt_succ hj)
    rwa [show n + 1 + j = n + (j + 1) by omega]

/-- The loop returns the outcome of the first response without tool calls,
given fuel for one more iteration than the responses before it. -/
theorem runLoop_scripted_some (k : Nat) :
    ∀ (fuel : Nat) (messages : List Message) (n : Nat) (w : ω),
      k < fuel → (∀ j, j < k → (script (n + j)).result.toolCalls ≠ []) →
      (script (n + k)).result.toolCalls = [] →
      ∃ w1, (a.scripted script).runLoop L fuel messages n w =
        some (((script (n + k)).result.content, (script (n + k)).result.err), n + k + 1, w1) := by
  induction k with
  | zero =>
    intro fuel messages n w hk _ hstop
    obtain ⟨f, rfl⟩ : ∃ f, fuel = f + 1 := ⟨fuel - 1, by omega⟩
    exact ⟨w, by simpa using runLoop_scripted_stop L a script f messages n w (by simpa using hstop)⟩
  | succ k ih =>
    intro fuel messages n w hk hbefore hstop
    obtain ⟨f, rfl⟩ : ∃ f, fuel = f + 1 := ⟨fuel - 1, by omega⟩
    rw [runLoop_scripted_step L a script f messages n w (by simpa using hbefore 0 (Nat.succ_pos _))]
    have hstep := ih f
      ((a.scripted script).runToolCalls L (script n).result.toolCalls
          (messages ++ [⟨"assistant", (script n).result.content⟩]) w).1
      (n + 1)
      ((a.scripted script).runToolCalls L (script n).result.toolCalls
          (messages ++ [⟨"assistant", (script n).result.content⟩]) w).2
      (by omega)
      (by
        intro j hj
        have := hbefore (j + 1) (Nat.succ_lt_succ hj)
        rwa [show n + 1 + j = n + (j + 1) by omega])
      (by rwa [show n + 1 + k = n + (k + 1) by omega])
    obtain ⟨w1, hw1⟩ := hstep
    exact ⟨w1, by rw [hw1, show n + 1 + k = n + (k + 1) by omega]⟩

end Scripted

/-- C1: against a gateway replaying any script of replies, `Agent.Run` returns
(for some number of iterations) iff some response of the script has no tool
call; when it returns, its text is the text content of the first such response
(and its error that response's error: none for a message of the model); and
when every reply of the script requests one tool call, `Agent.Run` has not
returned after any number of iterations. -/
theorem agent_run_terminates_iff_some_response_has_no_tool_call {γ ω : Type} (L : GoLib)
    (a : Agent γ ω) (script : Nat → GatewayReply) (task : String) (w : ω) :
    ((∃ fuel, ((a.scripted script).Run L task fuel 0 w).isSome) ↔
        ∃ i, (script i).result.toolCalls.length = 0) ∧
    (∀ fuel r, (a.scripted script).Run L task fuel 0 w = some r →
        ∃ i, (script i).result.toolCalls.length = 0 ∧
          (∀ j, j < i → (script j).result.toolCalls.length ≠ 0) ∧
          r.1 = ((script i).result.content, (script i).result.err)) ∧
    (∀ (content : Nat → String) (call : Nat → ToolCall) (fuel : Nat),
        (a.scripted (fun i => GatewayReply.message (content i) [call i])).Run L task fuel 0 w
          = none) := by
  classical
  have first : ∀ i, (script i).result.toolCalls.length = 0 →
      ∃ k, (script k).result.toolCalls = [] ∧
        (∀ j, j < k → (script j).result.toolCalls ≠ []) := by
    intro i hi
    have hex : ∃ k, (script k).result.toolCalls = [] := ⟨i, List.length_eq_zero.mp hi⟩
    exact ⟨Nat.find hex, Nat.find_spec hex, fun j hj => Nat.find_min hex hj⟩
  have returned : ∀ fuel r, (a.scripted script).Run L task fuel 0 w = some r →
      ∃ i, (script i).result.toolCalls.length = 0 ∧
        (∀ j, j < i → (script j).result.toolCalls.length ≠ 0) ∧
        r.1 = ((script i).result.content, (script i).result.err) := by
    intro fuel r hr
    by_cases hall : ∀ j, j < fuel → (script (0 + j)).result.toolCalls ≠ []
    · have := runLoop_scripted_none L a script fuel
        [⟨"system", (a.scripted script).Prompt⟩, ⟨"user", task⟩] 0 w hall
      rw [Agent.Run, this] at hr
      cases hr
    · push_neg at hall
      obtain ⟨i, _, hi⟩ := hall
      obtain ⟨k, hk, hmin⟩ := first i (by simpa using hi)
      have hkf : k < fuel := by
        by_contra hge
        have := runLoop_scripted_none L a script fuel
          [⟨"system", (a.scripted script).Prompt⟩, ⟨"user", task⟩] 0 w
          (fun j hj => by simpa using hmin j (by omega))
        rw [Agent.Run, this] at hr
        cases hr
      obtain ⟨w1, hw1⟩ := runLoop_scripted_some L a script k fuel
        [⟨"system", (a.scripted script).Prompt⟩, ⟨"user", task⟩] 0 w hkf
        (fun j hj => by simpa using hmin j hj) (by simpa using hk)
      rw [Agent.Run, hw1] at hr
      refine ⟨k, by simp [hk], fun j hj => by simpa using hmin j hj, ?_⟩
      cases hr
      simp
  refine ⟨⟨?_, ?_⟩, returned, ?_⟩
  · rintro ⟨fuel, hsome⟩
    obtain ⟨r, hr⟩ := Option.isSome_iff_exists.mp hsome
    obtain ⟨i, hi, _⟩ := returned fuel r hr
    exact ⟨i, hi⟩
  · rintro ⟨i, hi⟩
    obtain ⟨k, hk, hmin⟩ := first i hi
    obtain ⟨w1, hw1⟩ := runLoop_scripted_some L a script k (k + 1)
      [⟨"system", (a.scripted script).Prompt⟩, ⟨"user", task⟩] 0 w (Nat.lt_succ_self k)
      (fun j hj => by simpa using hmin j hj) (by simpa using hk)
    exact ⟨k + 1, by rw [Agent.Run, hw1]; rfl⟩
  · intro content call fuel
    exact runLoop_scripted_none L a (fun i => GatewayReply.message (content i) [call i]) fuel _ 0 w
      (fun j _ => by simp [GatewayReply.result])

/-! ## Looking a name up in a registry -/

/-- `FindTool` finds nothing exactly when no tool of the list bears the name. -/
theorem findTool_eq_none_iff {ω : Type} (tools : List (Tool ω)) (name : String) :
    FindTool tools name = none ↔ ∀ t ∈ tools, t.Name ≠ name := by
  induction tools with
  | nil => simp [FindTool]
  | cons x rest ih =>
    by_cases hx : x.Name = name
    · simp [FindTool, hx]
    · simp [FindTool, hx, ih]

/-- A tool found by `FindTool` belongs to the list and bears the name. -/
theorem findTool_some {ω : Type} (tools : List (Tool ω)) (name : String) (tool : Tool ω)
    (h : FindTool tools name = some tool) : tool ∈ tools ∧ tool.Name = name := by
  induction tools with
  | nil => simp [FindTool] at h
  | cons x rest ih =>
    by_cases hx : x.Name = name
    · simp only [FindTool, hx, if_true, Option.some.injEq] at h
      subst h
      exact ⟨List.mem_cons_self _ _, hx⟩
    · simp only [FindTool, hx, if_false] at h
      exact ⟨List.mem_cons_of_mem _ (ih h).1, (ih h).2⟩

/-- `FindTool` finds a tool exactly when some tool of the list bears the name. -/
theorem findTool_isSome_iff {ω : Type} (tools : List (Tool ω)) (name : String) :
    (FindTool tools name).isSome = true ↔ ∃ t ∈ tools, t.Name = name := by
  constructor
  · intro h
    obtain ⟨tool, htool⟩ := Option.isSome_iff_exists.mp h
    exact ⟨tool, findTool_some tools name tool htool⟩
  · rintro ⟨t, ht, hname⟩
    cases hf : FindTool tools name with
    | some tool => rfl
    | none => exact absurd hname ((findTool_eq_none_iff tools name).mp hf t ht)

/-- A tool call resolves for an agent exactly when `FindTool` finds its name. -/
theorem agent_resolves_eq {γ ω : Type} (a : Agent γ ω) (tc : ToolCall) :
    a.resolves tc = (FindTool a.Tools tc.Function.Name).isSome := by
  rw [Bool.eq_iff_iff, findTool_isSome_iff]
  simp [Agent.resolves]

/-! ## The tool calls of one turn of the agent loop -/

section AgentTurn

variable {γ ω : Type} (L : GoLib) (a : Agent γ ω)

/-- The messages present before the tool calls stay in front, untouched. -/
theorem runToolCalls_acc (calls : List ToolCall) :
    ∀ (messages : List Message) (w : ω),
      a.runToolCalls L calls messages w =
        (messages ++ (a.runToolCalls L calls [] w).1, (a.runToolCalls L calls [] w).2) := by
  induction calls with
  | nil => intro messages w; simp [Agent.runToolCalls]
  | cons tc rest ih =>
    intro messages w
    cases hf : FindTool a.Tools tc.Function.Name with
    | none => simpa [Agent.runToolCalls, hf] using ih messages w
    | some tool =>
      simp only [Agent.runToolCalls, hf]
      rw [ih (messages ++ _), ih ([] ++ _)]
      simp

/-- A call with an unknown name leaves history and environment as they are. -/
theorem runToolCalls_cons_unknown (tc : ToolCall) (rest : List ToolCall)
    (messages : List Message) (w : ω) (h : FindTool a.Tools tc.Function.Name = none) :
    a.runToolCalls L (tc :: rest) messages w = a.runToolCalls L rest messages w := by
  simp [Agent.runToolCalls, h]

/-- A call with a known name contributes one `tool` message, put in front of
what the later calls contribute. -/
theorem runToolCalls_cons_known (tc : ToolCall) (rest : List ToolCall) (w : ω) (tool : Tool ω)
    (h : FindTool a.Tools tc.Function.Name = some tool) :
    a.runToolCalls L (tc :: rest) [] w =
      (⟨"tool", (tool.Execute L tc.Function.Arguments w).1.1⟩ ::
          (a.runToolCalls L rest [] (tool.Execute L tc.Function.Arguments w).2).1,
        (a.runToolCalls L rest [] (tool.Execute L tc.Function.Arguments w).2).2) := by
  simp only [Agent.runToolCalls, h]
  rw [runToolCalls_acc]
  simp

/-- Only the calls whose name resolves matter. -/
theorem runToolCalls_filter (calls : List ToolCall) :
    ∀ (messages : List Message) (w : ω),
      a.runToolCalls L calls messages w =
        a.runToolCalls L (calls.filter a.resolves) messages w := by
  induction calls with
  | nil => intro messages w; rfl
  | cons tc rest ih =>
    intro messages w
    cases hf : FindTool a.Tools tc.Function.Name with
    | none =>
      have hr : a.resolves tc = false := by simp [agent_resolves_eq, hf]
      rw [runToolCalls_cons_unknown L a tc rest messages w hf, List.filter_cons_of_neg (by simp [hr])]
      exact ih messages w
    | some tool =>
      have hr : a.resolves tc = true := by simp [agent_resolves_eq, hf]
      rw [List.filter_cons_of_pos hr]
      simp only [Agent.runToolCalls, hf]
      exact ih _ _

/-- Every appended message has the `tool` role. -/
theorem runToolCalls_roles (calls : List ToolCall) :
    ∀ (w : ω), ∀ m ∈ (a.runToolCalls L calls [] w).1, m.Role = "tool" := by
  induction calls with
  | nil => intro w m hm; simp [Agent.runToolCalls] at hm
  | cons tc rest ih =>
    intro w m hm
    cases hf : FindTool a.Tools tc.Function.Name with
    | none =>
      rw [runToolCalls_cons_unknown L a tc rest [] w hf] at hm
      exact ih w m hm
    | some tool =>
      rw [runToolCalls_cons_known L a tc rest w tool hf] at hm
      rcases List.mem_cons.mp hm with rfl | hm
      · rfl
      · exact ih _ m hm

/-- One message is appended per call whose name resolves. -/
theorem runToolCalls_length (calls : List ToolCall) :
    ∀ (w : ω), (a.runToolCalls L calls [] w).1.length = (calls.filter a.resolves).length := by
  induction calls with
  | nil => intro w; rfl
  | cons tc rest ih =>
    intro w
    cases hf : FindTool a.Tools tc.Function.Name with
    | none =>
      have hr : a.resolves tc = false := by simp [agent_resolves_eq, hf]
      rw [runToolCalls_cons_unknown L a tc rest [] w hf, List.filter_cons_of_neg (by simp [hr])]
      exact ih w
    | some tool =>
      have hr : a.resolves tc = true := by simp [agent_resolves_eq, hf]
      rw [runToolCalls_cons_known L a tc rest w tool hf, List.filter_cons_of_pos hr]
      simp [ih]

/-- When every name resolves, message number `i` holds the result of call
number `i`, executed in the environment left by the calls before it. -/
theorem runToolCalls_getElem (calls : List ToolCall) :
    (∀ tc ∈ calls, a.resolves tc = true) →
    ∀ (w : ω) (i : Nat) (tc : ToolCall), calls[i]? = some tc →
      ∃ tool, FindTool a.Tools tc.Function.Name = some tool ∧
        (a.runToolCalls L calls [] w).1[i]? =
          some ⟨"tool", (tool.Execute L tc.Function.Arguments
            (a.runToolCalls L (calls.take i) [] w).2).1.1⟩ := by
  induction calls with
  | nil => intro _ w i tc h; simp at h
  | cons c rest ih =>
    intro hall w i tc h
    have hc : a.resolves c = true := hall c (List.mem_cons_self _ _)
    obtain ⟨tool, hf⟩ := Option.isSome_iff_exists.mp ((agent_resolves_eq a c).symm.trans hc)
    cases i with
    | zero =>
      obtain rfl : c = tc := by simpa using h
      exact ⟨tool, hf, by rw [runToolCalls_cons_known L a c rest w tool hf]; simp [Agent.runToolCalls]⟩
    | succ i =>
      have h1 : rest[i]? = some tc := by simpa using h
      obtain ⟨t, ht, hget⟩ := ih (fun x hx => hall x (List.mem_cons_of_mem _ hx))
        (tool.Execute L c.Function.Arguments w).2 i tc h1
      refine ⟨t, ht, ?_⟩
      rw [runToolCalls_cons_known L a c rest w tool hf, List.take_succ_cons,
        runToolCalls_cons_known L a c (rest.take i) w tool hf]
      simpa using hget

end AgentTurn

/-! ## The delegations of one turn of the supervisor loop -/

section SupervisorTurn

variable {γ ω : Type} (L : GoLib) (s : Supervisor γ ω) (workerFuel : Nat)

/-- An agent found by name belongs to the roster and bears that name. -/
theorem findAgentIn_some (agents : List (Agent γ ω)) (name : String) (agent : Agent γ ω)
    (h : findAgentIn agents name = some agent) : agent ∈ agents ∧ agent.Name = name := by
  induction agents with
  | nil => simp [findAgentIn] at h
  | cons x rest ih =>
    by_cases hx : x.Name = name
    · simp only [findAgentIn, hx, if_true, Option.some.injEq] at h
      subst h
      exact ⟨List.mem_cons_self _ _, hx⟩
    · simp only [findAgentIn, hx, if_false] at h
      exact ⟨List.mem_cons_of_mem _ (ih h).1, (ih h).2⟩

/-- The roster lookup finds nothing exactly when no agent bears the name. -/
theorem findAgentIn_eq_none_iff (agents : List (Agent γ ω)) (name : String) :
    findAgentIn agents name = none ↔ ∀ agent ∈ agents, agent.Name ≠ name := by
  induction agents with
  | nil => simp [findAgentIn]
  | cons x rest ih =>
    by_cases hx : x.Name = name
    · simp [findAgentIn, hx]
    · simp [findAgentIn, hx, ih]

/-- The roster lookup finds an agent exactly when some agent bears the name. -/
theorem findAgent_isSome_iff (name : String) :
    (s.findAgent name).isSome = true ↔ ∃ agent ∈ s.Agents, agent.Name = name := by
  constructor
  · intro h
    obtain ⟨agent, hagent⟩ := Option.isSome_iff_exists.mp h
    exact ⟨agent, findAgentIn_some s.Agents name agent hagent⟩
  · rintro ⟨agent, hmem, hname⟩
    cases hf : s.findAgent name with
    | some found => rfl
    | none => exact absurd hname ((findAgentIn_eq_none_iff s.Agents name).mp hf agent hmem)

/-- A tool call resolves for a supervisor exactly when `findAgent` finds its
name. -/
theorem supervisor_resolves_eq (tc : ToolCall) :
    s.resolves tc = (s.findAgent tc.Function.Name).isSome := by
  rw [Bool.eq_iff_iff, findAgent_isSome_iff]
  simp [Supervisor.resolves]

/-- The messages present before the delegations stay in front, untouched. -/
theorem delegate_acc (calls : List ToolCall) :
    ∀ (messages : List Message) (g : γ) (w : ω),
      s.delegate L workerFuel calls messages g w =
        (s.delegate L workerFuel calls [] g w).map (fun out => (messages ++ out.1, out.2)) := by
  induction calls with
  | nil => intro messages g w; simp [Supervisor.delegate]
  | cons tc rest ih =>
    intro messages g w
    cases hf : s.findAgent tc.Function.Name with
    | none => simpa [Supervisor.delegate, hf] using ih messages g w
    | some agent =>
      simp only [Supervisor.delegate, hf]
      cases hr : agent.Run L (L.unmarshalTask tc.Function.Arguments).1 workerFuel g w with
      | none => simp
      | some out =>
        obtain ⟨r, g1, w1⟩ := out
        simp only
        rw [ih (messages ++ _), ih ([] ++ _)]
        simp [Option.map_map, Function.comp_def]

/-- A delegation to an unknown name leaves history and states as they are. -/
theorem delegate_cons_unknown (tc : ToolCall) (rest : List ToolCall)
    (messages : List Message) (g : γ) (w : ω) (h : s.findAgent tc.Function.Name = none) :
    s.delegate L workerFuel (tc :: rest) messages g w =
      s.delegate L workerFuel rest messages g w := by
  simp [Supervisor.delegate, h]

/-- A delegation to a known worker whose run returns contributes one `tool`
message, put in front of what the later delegations contribute. -/
theorem delegate_cons_known (tc : ToolCall) (rest : List ToolCall) (g : γ) (w : ω)
    (agent : Agent γ ω) (h : s.findAgent tc.Function.Name = some agent) :
    s.delegate L workerFuel (tc :: rest) [] g w =
      match agent.Run L (L.unmarshalTask tc.Function.Arguments).1 workerFuel g w with
      | none => none
      | some (r, g1, w1) =>
        (s.delegate L workerFuel rest [] g1 w1).map
          (fun out => (⟨"tool", delegationResult r⟩ :: out.1, out.2)) := by
  simp only [Supervisor.delegate, h]
  cases agent.Run L (L.unmarshalTask tc.Function.Arguments).1 workerFuel g w with
  | none => rfl
  | some out =>
    obtain ⟨r, g1, w1⟩ := out
    simp only
    rw [delegate_acc]
    simp

/-- Only the delegations whose name resolves matter. -/
theorem delegate_filter (calls : List ToolCall) :
    ∀ (messages : List Message) (g : γ) (w : ω),
      s.delegate L workerFuel calls messages g w =
        s.delegate L workerFuel (calls.filter s.resolves) messages g w := by
  induction calls with
  | nil => intro messages g w; rfl
  | cons tc rest ih =>
    intro messages g w
    cases hf : s.findAgent tc.Function.Name with
    | none =>
      have hr : s.resolves tc = false := by simp [supervisor_resolves_eq, hf]
      rw [delegate_cons_unknown L s workerFuel tc rest messages g w hf,
        List.filter_cons_of_neg (by simp [hr])]
      exact ih messages g w
    | some agent =>
      have hr : s.resolves tc = true := by simp [supervisor_resolves_eq, hf]
      rw [List.filter_cons_of_pos hr]
      simp only [Supervisor.delegate, hf]
      cases agent.Run L (L.unmarshalTask tc.Function.Arguments).1 workerFuel g w with
      | none => rfl
      | some out => exact ih _ _ _

/-- Every appended message has the `tool` role. -/
theorem delegate_roles (calls : List ToolCall) :
    ∀ (g : γ) (w : ω) (out : List Message × γ × ω),
      s.delegate L workerFuel calls [] g w = some out → ∀ m ∈ out.1, m.Role = "tool" := by
  induction calls with
  | nil =>
    intro g w out h m hm
    simp only [Supervisor.delegate, Option.some.injEq] at h
    subst h
    simp at hm
  | cons tc rest ih =>
    intro g w out h m hm
    cases hf : s.findAgent tc.Function.Name with
    | none =>
      rw [delegate_cons_unknown L s workerFuel tc rest [] g w hf] at h
      exact ih g w out h m hm
    | some agent =>
      rw [delegate_cons_known L s workerFuel tc rest g w agent hf] at h
      cases hr : agent.Run L (L.unmarshalTask tc.Function.Arguments).1 workerFuel g w with
      | none => simp [hr] at h
      | some res =>
        obtain ⟨r, g1, w1⟩ := res
        simp only [hr, Option.map_eq_some'] at h
        obtain ⟨out1, hout1, rfl⟩ := h
        rcases List.mem_cons.mp hm with rfl | hm
        · rfl
        · exact ih g1 w1 out1 hout1 m hm

/-- One message is appended per delegation whose name resolves. -/
theorem delegate_length (calls : List ToolCall) :
    ∀ (g : γ) (w : ω) (out : List Message × γ × ω),
      s.delegate L workerFuel calls [] g w = some out →
      out.1.length = (calls.filter s.resolves).length := by
  induction calls with
  | nil =>
    intro g w out h
    simp only [Supervisor.delegate, Option.some.injEq] at h
    subst h
    rfl
  | cons tc rest ih =>
    intro g w out h
    cases hf : s.findAgent tc.Function.Name with
    | none =>
      have hr : s.resolves tc = false := by simp [supervisor_resolves_eq, hf]
      rw [delegate_cons_unknown L s workerFuel tc rest [] g w hf] at h
      rw [List.filter_cons_of_neg (by simp [hr])]
      exact ih g w out h
    | some agent =>
      have hr : s.resolves tc = true := by simp [supervisor_resolves_eq, hf]
      rw [delegate_cons_known L s workerFuel tc rest g w agent hf] at h
      rw [List.filter_cons_of_pos hr]
      cases hrun : agent.Run L (L.unmarshalTask tc.Function.Arguments).1 workerFuel g w with
      | none => simp [hrun] at h
      | some res =>
        obtain ⟨r, g1, w1⟩ := res
        simp only [hrun, Option.map_eq_some'] at h
        obtain ⟨out1, hout1, rfl⟩ := h
        simp [ih g1 w1 out1 hout1]

/-- When every name resolves and the turn completes, message number `i` holds
the outcome of delegation number `i`: the named worker run on the decoded
task in the states left by the delegations before it. -/
theorem delegate_getElem (calls : List ToolCall) :
    (∀ tc ∈ calls, s.resolves tc = true) →
    ∀ (g : γ) (w : ω) (out : List Message × γ × ω),
      s.delegate L workerFuel calls [] g w = some out →
      ∀ (i : Nat) (tc : ToolCall), calls[i]? = some tc →
        ∃ agent before r after,
          s.findAgent tc.Function.Name = some agent ∧
          s.delegate L workerFuel (calls.take i) [] g w = some before ∧
          agent.Run L (L.unmarshalTask tc.Function.Arguments).1 workerFuel before.2.1 before.2.2
            = some (r, after) ∧
          out.1[i]? = some ⟨"tool", delegationResult r⟩ := by
  induction calls with
  | nil => intro _ g w out _ i tc h; simp at h
  | cons c rest ih =>
    intro hall g w out hout i tc h
    have hc : s.resolves c = true := hall c (List.mem_cons_self _ _)
    obtain ⟨agent, hf⟩ := Option.isSome_iff_exists.mp ((supervisor_resolves_eq s c).symm.trans hc)
    rw [delegate_cons_known L s workerFuel c rest g w agent hf] at hout
    cases hrun : agent.Run L (L.unmarshalTask c.Function.Arguments).1 workerFuel g w with
    | none => simp [hrun] at hout
    | some res =>
      obtain ⟨r, g1, w1⟩ := res
      simp only [hrun, Option.map_eq_some'] at hout
      obtain ⟨out1, hout1, rfl⟩ := hout
      cases i with
      | zero =>
        obtain rfl : c = tc := by simpa using h
        exact ⟨agent, ([], g, w), r, (g1, w1), hf, by simp [Supervisor.delegate], hrun, by simp⟩
      | succ i =>
        have h1 : rest[i]? = some tc := by simpa using h
        obtain ⟨ag, before, r1, after, hag, hbefore, hr1, hget⟩ :=
          ih (fun x hx => hall x (List.mem_cons_of_mem _ hx)) g1 w1 out1 hout1 i tc h1
        refine ⟨ag, (⟨"tool", delegationResult r⟩ :: before.1, before.2), r1, after, hag, ?_,
          hr1, by simpa using hget⟩
        rw [List.take_succ_cons, delegate_cons_known L s workerFuel c (rest.take i) g w agent hf,
          hrun]
        simp [hbefore]

/-- When every worker of the roster returns within the worker fuel from every
state, the delegations of a turn complete. -/
theorem delegate_isSome
    (hworkers : ∀ agent ∈ s.Agents, ∀ (task : String) (g : γ) (w : ω),
      (agent.Run L task workerFuel g w).isSome)
    (calls : List ToolCall) :
    ∀ (messages : List Message) (g : γ) (w : ω),
      (s.delegate L workerFuel calls messages g w).isSome := by
  induction calls with
  | nil => intro messages g w; rfl
  | cons tc rest ih =>
    intro messages g w
    cases hf : s.findAgent tc.Function.Name with
    | none =>
      rw [delegate_cons_unknown L s workerFuel tc rest messages g w hf]
      exact ih messages g w
    | some agent =>
      have hmem := (findAgentIn_some s.Agents _ agent hf).1
      obtain ⟨res, hres⟩ := Option.isSome_iff_exists.mp
        (hworkers agent hmem (L.unmarshalTask tc.Function.Arguments).1 g w)
      simp only [Supervisor.delegate, hf, hres]
      exact ih _ _ _

end SupervisorTurn

/-! ## C2: what one turn appends to the history -/

/-- C2 (as stated, refuted): the hotel assistant receives a response with one
tool call, named `book_flight`, which is not among its tools; the turn appends
the `assistant` message and no `tool` message, not one. -/
theorem turn_with_unknown_tool_appends_no_tool_message :
    ((scriptedGateway (fun _ => GatewayReply.message "" [⟨"call_1", ⟨"book_flight", "null"⟩⟩])).Invoke
        [⟨"system", "p"⟩, ⟨"user", "u"⟩] [] 0).1.toolCalls.length = 1 ∧
    (Agent.step goLib
        (NewHotelAssistant
          (scriptedGateway (fun _ => GatewayReply.message "" [⟨"call_1", ⟨"book_flight", "null"⟩⟩])))
        [⟨"system", "p"⟩, ⟨"user", "u"⟩] 0 ()).1 =
      LoopStep.next [⟨"system", "p"⟩, ⟨"user", "u"⟩, ⟨"assistant", ""⟩] := by
  constructor <;> rfl

/-- C2 (amended): in a turn of `Agent.Run` or of `Supervisor.Invoke` whose
gateway response carries tool calls, the history grows by exactly one
`assistant` message followed by exactly one `tool` message for each tool call
whose name resolves in the consulted registry, in the order the gateway
returned them and with nothing in between: message number `i` carries the
result of the `i`-th resolving call, run in the state the earlier calls left.
When all `N` names resolve these are `N` messages.  A supervisor turn
completes when every worker of the roster returns. -/
theorem turn_appends_assistant_then_tool_message_per_resolved_call {γ ω : Type} (L : GoLib)
    (a : Agent γ ω) (s : Supervisor γ ω) (workerFuel : Nat) (messages : List Message)
    (g : γ) (w : ω) :
    (∀ r g1, a.Model.Invoke messages (ToolsToOpenAI a.Tools) g = (r, g1) →
      r.err = none → r.toolCalls ≠ [] →
      ∃ appended : List Message,
        a.step L messages g w =
          (LoopStep.next (messages ++ ⟨"assistant", r.content⟩ :: appended), g1,
            (a.runToolCalls L (r.toolCalls.filter a.resolves) [] w).2) ∧
        appended.length = (r.toolCalls.filter a.resolves).length ∧
        (∀ m ∈ appended, m.Role = "tool") ∧
        (∀ (i : Nat) (tc : ToolCall), (r.toolCalls.filter a.resolves)[i]? = some tc →
          ∃ tool, FindTool a.Tools tc.Function.Name = some tool ∧
            appended[i]? = some ⟨"tool", (tool.Execute L tc.Function.Arguments
              (a.runToolCalls L ((r.toolCalls.filter a.resolves).take i) [] w).2).1.1⟩) ∧
        ((∀ tc ∈ r.toolCalls, a.resolves tc = true) → appended.length = r.toolCalls.length)) ∧
    (∀ r g1, s.Model.Invoke messages s.buildTools g = (r, g1) →
      r.err = none → r.toolCalls ≠ [] →
      ((∀ agent ∈ s.Agents, ∀ (task : String) (g2 : γ) (w2 : ω),
          (agent.Run L task workerFuel g2 w2).isSome) →
        (s.step L workerFuel messages g w).isSome) ∧
      (∀ res, s.step L workerFuel messages g w = some res →
        ∃ appended : List Message,
          res.1 = LoopStep.next (messages ++ ⟨"assistant", r.content⟩ :: appended) ∧
          appended.length = (r.toolCalls.filter s.resolves).length ∧
          (∀ m ∈ appended, m.Role = "tool") ∧
          (∀ (i : Nat) (tc : ToolCall), (r.toolCalls.filter s.resolves)[i]? = some tc →
            ∃ agent before out after,
              s.findAgent tc.Function.Name = some agent ∧
              s.delegate L workerFuel ((r.toolCalls.filter s.resolves).take i) [] g1 w
                = some before ∧
              agent.Run L (L.unmarshalTask tc.Function.Arguments).1 workerFuel
                before.2.1 before.2.2 = some (out, after) ∧
              appended[i]? = some ⟨"tool", delegationResult out⟩) ∧
          ((∀ tc ∈ r.toolCalls, s.resolves tc = true) →
            appended.length = r.toolCalls.length))) := by
  constructor
  · intro r g1 hinv herr hcalls
    have hlen : ¬ r.toolCalls.length = 0 := by simpa using hcalls
    refine ⟨(a.runToolCalls L (r.toolCalls.filter a.resolves) [] w).1, ?_, ?_, ?_, ?_, ?_⟩
    · simp only [Agent.step, hinv, herr, hlen, if_false]
      rw [runToolCalls_filter, runToolCalls_acc]
      simp
    · rw [runToolCalls_length, List.filter_filter]
      simp
    · exact runToolCalls_roles L a _ w
    · intro i tc hi
      exact runToolCalls_getElem L a _ (fun x hx => (List.mem_filter.mp hx).2) w i tc hi
    · intro hall
      rw [runToolCalls_length, List.filter_filter]
      simp only [Bool.and_self]
      rw [List.filter_eq_self.mpr hall]
  · intro r g1 hinv herr hcalls
    have hlen : ¬ r.toolCalls.length = 0 := by simpa using hcalls
    have hstep : s.step L workerFuel messages g w =
        (s.delegate L workerFuel (r.toolCalls.filter s.resolves) [] g1 w).map
          (fun out => (LoopStep.next (messages ++ ⟨"assistant", r.content⟩ :: out.1), out.2)) := by
      simp only [Supervisor.step, hinv, herr, hlen, if_false]
      rw [delegate_filter, delegate_acc]
      cases s.delegate L workerFuel (r.toolCalls.filter s.resolves) [] g1 w with
      | none => rfl
      | some out => simp
    constructor
    · intro hworkers
      rw [hstep, Option.isSome_map']
      exact delegate_isSome L s workerFuel hworkers _ [] g1 w
    · intro res hres
      rw [hstep, Option.map_eq_some'] at hres
      obtain ⟨out, hout, rfl⟩ := hres
      refine ⟨out.1, rfl, ?_, ?_, ?_, ?_⟩
      · rw [delegate_length L s workerFuel _ g1 w out hout, List.filter_filter]
        simp
      · exact delegate_roles L s workerFuel _ g1 w out hout
      · intro i tc hi
        exact delegate_getElem L s workerFuel _ (fun x hx => (List.mem_filter.mp hx).2)
          g1 w out hout i tc hi
      · intro hall
        rw [delegate_length L s workerFuel _ g1 w out hout, List.filter_filter]
        simp only [Bool.and_self]
        rw [List.filter_eq_self.mpr hall]

/-- C2 (amended), at a concrete turn: the supervisor of `main` receives two
delegations, one to `hotel_assistant` and one to an unknown name; the turn
appends the `assistant` message and the one `tool` message of the hotel
assistant. -/
theorem turn_appends_assistant_then_tool_message_per_resolved_call_witness :
    ∃ res appended,
      (mainSupervisor (scriptedGateway bookingScript) : Supervisor Nat Unit).step goLib 5
        [⟨"system", "p"⟩, ⟨"user", "u"⟩] 0 () = some res ∧
      res.1 = LoopStep.next ([⟨"system", "p"⟩, ⟨"user", "u"⟩] ++ ⟨"assistant", ""⟩ :: appended) ∧
      appended.length = 1 ∧
      appended[0]? = some ⟨"tool", "Done"⟩ := by
  have h := (turn_appends_assistant_then_tool_message_per_resolved_call goLib
    (NewHotelAssistant (scriptedGateway bookingScript) : Agent Nat Unit)
    (mainSupervisor (scriptedGateway bookingScript) : Supervisor Nat Unit) 5
    [⟨"system", "p"⟩, ⟨"user", "u"⟩] 0 ()).2 _ _ rfl rfl (by decide)
  obtain ⟨res, hres⟩ := Option.isSome_iff_exists.mp (show
    ((mainSupervisor (scriptedGateway bookingScript) : Supervisor Nat Unit).step goLib 5
      [⟨"system", "p"⟩, ⟨"user", "u"⟩] 0 ()).isSome from rfl)
  obtain ⟨appended, h1, h2, -, h4, -⟩ := h.2 res hres
  obtain ⟨agent, before, out, after, hagent, hbefore, hrun, hget⟩ :=
    h4 0 ⟨"call_1", ⟨"hotel_assistant", "\x7b\"task\":\"book hotel X\"\x7d"⟩⟩ rfl
  have hagent1 : agent = NewHotelAssistant (scriptedGateway bookingScript) :=
    (Option.some.inj hagent).symm
  have hbefore1 : before = ([], 1, ()) := (Option.some.inj hbefore).symm
  subst hagent1 hbefore1
  have hout : out = ("Done", none) := congrArg Prod.fst (Option.some.inj hrun).symm
  subst hout
  exact ⟨res, appended, hres, h1, h2, hget⟩

/-! ## C3: tool calls whose name does not resolve -/

/-- The number of `tool` messages in a list whose members all have that role. -/
theorem countP_tool_of_roles (appended : List Message)
    (h : ∀ m ∈ appended, m.Role = "tool") :
    appended.countP (fun m => m.Role == "tool") = appended.length := by
  rw [List.countP_eq_length]
  intro m hm
  simp [h m hm]

/-- The `assistant` message of a turn is not counted among its `tool` messages. -/
theorem countP_tool_assistant_cons (content : String) (appended : List Message) :
    (⟨"assistant", content⟩ :: appended : List Message).countP (fun m => m.Role == "tool") =
      appended.countP (fun m => m.Role == "tool") := by
  rw [List.countP_cons]
  have h : (("assistant" : String) == "tool") = false := by decide
  simp [h]

/-- C3: in `Agent.Run` (registry: the tools of the agent) and in
`Supervisor.Invoke` (registry: the agents of the roster), a tool call whose
name is the name of no entry of the registry appends no message and produces
no error: the loop goes on with the next call, history and states unchanged;
a tool call whose name is the name of some entry is handed to an entry of
that name and appends one `tool` message.  Hence the number of `tool`
messages a turn appends equals the number of its tool calls whose name is the
name of some entry; a supervisor turn none of whose names is in the roster
completes without running any worker. -/
theorem unresolved_tool_call_is_skipped {γ ω : Type} (L : GoLib)
    (a : Agent γ ω) (s : Supervisor γ ω) (workerFuel : Nat) (messages : List Message)
    (g : γ) (w : ω) :
    (∀ tc rest, (∀ t ∈ a.Tools, t.Name ≠ tc.Function.Name) →
      a.runToolCalls L (tc :: rest) messages w = a.runToolCalls L rest messages w) ∧
    (∀ tc rest, (∃ t ∈ a.Tools, t.Name = tc.Function.Name) →
      ∃ tool ∈ a.Tools, tool.Name = tc.Function.Name ∧
        a.runToolCalls L (tc :: rest) messages w =
          a.runToolCalls L rest
            (messages ++ [⟨"tool", (tool.Execute L tc.Function.Arguments w).1.1⟩])
            (tool.Execute L tc.Function.Arguments w).2) ∧
    (∀ r g1, a.Model.Invoke messages (ToolsToOpenAI a.Tools) g = (r, g1) →
      r.err = none → r.toolCalls ≠ [] →
      ∃ added : List Message,
        (a.step L messages g w).1 = LoopStep.next (messages ++ added) ∧
        added.countP (fun m => m.Role == "tool") =
          r.toolCalls.countP (fun tc => a.Tools.any (fun t => t.Name == tc.Function.Name))) ∧
    (∀ tc rest, (∀ agent ∈ s.Agents, agent.Name ≠ tc.Function.Name) →
      s.delegate L workerFuel (tc :: rest) messages g w =
        s.delegate L workerFuel rest messages g w) ∧
    (∀ tc rest, (∃ agent ∈ s.Agents, agent.Name = tc.Function.Name) →
      ∃ agent ∈ s.Agents, agent.Name = tc.Function.Name ∧
        s.delegate L workerFuel (tc :: rest) messages g w =
          (agent.Run L (L.unmarshalTask tc.Function.Arguments).1 workerFuel g w).bind
            (fun out => s.delegate L workerFuel rest
              (messages ++ [⟨"tool", delegationResult out.1⟩]) out.2.1 out.2.2)) ∧
    (∀ r g1, s.Model.Invoke messages s.buildTools g = (r, g1) →
      r.err = none → r.toolCalls ≠ [] →
      ((∀ tc ∈ r.toolCalls, ∀ agent ∈ s.Agents, agent.Name ≠ tc.Function.Name) →
        s.step L workerFuel messages g w =
          some (LoopStep.next (messages ++ [⟨"assistant", r.content⟩]), g1, w)) ∧
      (∀ res, s.step L workerFuel messages g w = some res →
        ∃ added : List Message,
          res.1 = LoopStep.next (messages ++ added) ∧
          added.countP (fun m => m.Role == "tool") =
            r.toolCalls.countP
              (fun tc => s.Agents.any (fun agent => agent.Name == tc.Function.Name)))) := by
  refine ⟨?_, ?_, ?_, ?_, ?_, ?_⟩
  · intro tc rest hnone
    exact runToolCalls_cons_unknown L a tc rest messages w
      ((findTool_eq_none_iff a.Tools tc.Function.Name).mpr hnone)
  · intro tc rest hsome
    obtain ⟨tool, htool⟩ := Option.isSome_iff_exists.mp
      ((findTool_isSome_iff a.Tools tc.Function.Name).mpr hsome)
    obtain ⟨hmem, hname⟩ := findTool_some a.Tools tc.Function.Name tool htool
    exact ⟨tool, hmem, hname, by simp only [Agent.runToolCalls, htool]⟩
  · intro r g1 hinv herr hcalls
    have hlen : ¬ r.toolCalls.length = 0 := by simpa using hcalls
    refine ⟨⟨"assistant", r.content⟩ :: (a.runToolCalls L r.toolCalls [] w).1, ?_, ?_⟩
    · simp only [Agent.step, hinv, herr, hlen, if_false]
      rw [runToolCalls_acc]
      simp
    · rw [countP_tool_assistant_cons,
        countP_tool_of_roles _ (runToolCalls_roles L a _ w), runToolCalls_length,
        List.countP_eq_length_filter]
      rfl
  · intro tc rest hnone
    exact delegate_cons_unknown L s workerFuel tc rest messages g w
      ((findAgentIn_eq_none_iff s.Agents tc.Function.Name).mpr hnone)
  · intro tc rest hsome
    obtain ⟨agent, hagent⟩ := Option.isSome_iff_exists.mp
      ((findAgent_isSome_iff s tc.Function.Name).mpr hsome)
    obtain ⟨hmem, hname⟩ := findAgentIn_some s.Agents tc.Function.Name agent hagent
    refine ⟨agent, hmem, hname, ?_⟩
    simp only [Supervisor.delegate, hagent]
    cases agent.Run L (L.unmarshalTask tc.Function.Arguments).1 workerFuel g w with
    | none => rfl
    | some out => rfl
  · intro r g1 hinv herr hcalls
    have hlen : ¬ r.toolCalls.length = 0 := by simpa using hcalls
    have hstep : s.step L workerFuel messages g w =
        (s.delegate L workerFuel r.toolCalls [] g1 w).map
          (fun out => (LoopStep.next (messages ++ ⟨"assistant", r.content⟩ :: out.1), out.2)) := by
      simp only [Supervisor.step, hinv, herr, hlen, if_false]
      rw [delegate_acc]
      cases s.delegate L workerFuel r.toolCalls [] g1 w with
      | none => rfl
      | some out => simp
    constructor
    · intro hnone
      have hfilter : r.toolCalls.filter s.resolves = [] := by
        rw [List.filter_eq_nil_iff]
        intro tc htc
        have hfind : s.findAgent tc.Function.Name = none :=
          (findAgentIn_eq_none_iff s.Agents tc.Function.Name).mpr (hnone tc htc)
        simp [supervisor_resolves_eq, hfind]
      rw [hstep, delegate_filter, hfilter]
      simp [Supervisor.delegate]
    · intro res hres
      rw [hstep, Option.map_eq_some'] at hres
      obtain ⟨out, hout, rfl⟩ := hres
      refine ⟨⟨"assistant", r.content⟩ :: out.1, rfl, ?_⟩
      rw [countP_tool_assistant_cons,
        countP_tool_of_roles _ (delegate_roles L s workerFuel _ g1 w out hout),
        delegate_length L s workerFuel _ g1 w out hout, List.countP_eq_length_filter]
      rfl

/-- C3, at two concrete turns.  The hotel assistant receives a call named
`book_flight`, the name of none of its tools, and a call named `book_hotel`:
the turn appends the `assistant` message and the one `tool` message of
`book_hotel`.  The supervisor of `main` receives a delegation to
`hotel_assistant` and one to `taxi_assistant`, the name of no agent of its
roster: one `tool` message is appended. -/
theorem unresolved_tool_call_is_skipped_witness :
    ((NewHotelAssistant (scriptedGateway mixedCallsScript) : Agent Nat Unit).step goLib
        [⟨"system", "p"⟩, ⟨"user", "u"⟩] 0 ()).1 =
      LoopStep.next [⟨"system", "p"⟩, ⟨"user", "u"⟩, ⟨"assistant", ""⟩,
        ⟨"tool", "成功预定酒店: X"⟩] ∧
    (∃ added,
      ((NewHotelAssistant (scriptedGateway mixedCallsScript) : Agent Nat Unit).step goLib
        [⟨"system", "p"⟩, ⟨"user", "u"⟩] 0 ()).1 =
        LoopStep.next ([⟨"system", "p"⟩, ⟨"user", "u"⟩] ++ added) ∧
      added.countP (fun m => m.Role == "tool") = 1) ∧
    (∃ res added,
      (mainSupervisor (scriptedGateway bookingScript) : Supervisor Nat Unit).step goLib 5
        [⟨"system", "p"⟩, ⟨"user", "u"⟩] 0 () = some res ∧
      res.1 = LoopStep.next ([⟨"system", "p"⟩, ⟨"user", "u"⟩] ++ added) ∧
      added.countP (fun m => m.Role == "tool") = 1) := by
  have h := unresolved_tool_call_is_skipped goLib
    (NewHotelAssistant (scriptedGateway mixedCallsScript) : Agent Nat Unit)
    (mainSupervisor (scriptedGateway bookingScript) : Supervisor Nat Unit) 5
    [⟨"system", "p"⟩, ⟨"user", "u"⟩] 0 ()
  refine ⟨rfl, ?_, ?_⟩
  · obtain ⟨added, h1, h2⟩ := h.2.2.1 _ _ rfl rfl (by decide)
    exact ⟨added, h1, h2⟩
  · obtain ⟨res, hres⟩ := Option.isSome_iff_exists.mp (show
      ((mainSupervisor (scriptedGateway bookingScript) : Supervisor Nat Unit).step goLib 5
        [⟨"system", "p"⟩, ⟨"user", "u"⟩] 0 ()).isSome from rfl)
    obtain ⟨added, h1, h2⟩ := (h.2.2.2.2.2 _ _ rfl rfl (by decide)).2 res hres
    exact ⟨res, added, hres, h1, h2⟩

/-! ## C4: a tool whose execution fails inside `Agent.Run` -/

/-- C4 (code at the failing input): the hotel assistant is asked for
`book_hotel` with the argument text `{"hotel_name":"X` cut short. `Tool.Execute`
fails with an `invalid argument` error; the turn does not abort and appends a
`tool` message, but its content is the empty string: the error is dropped. -/
theorem agent_turn_appends_empty_content_for_failed_tool :
    Tool.Execute goLib (BookHotelTool : Tool Unit) "\x7b\"hotel_name\":\"X" () =
      (("", some "invalid argument: invalid JSON syntax"), ()) ∧
    Agent.step goLib (NewHotelAssistant (scriptedGateway truncatedArgsScript) : Agent Nat Unit)
        [⟨"system", "p"⟩, ⟨"user", "u"⟩] 0 () =
      (LoopStep.next
        [⟨"system", "p"⟩, ⟨"user", "u"⟩, ⟨"assistant", ""⟩, ⟨"tool", ""⟩], 1, ()) := by
  constructor <;> rfl

/-- Whatever the tool and the argument text: when `Tool.Execute` fails, the
message appended by `Agent.Run` for the call has empty content. -/
theorem runToolCalls_failed_execute {γ ω : Type} (L : GoLib) (a : Agent γ ω) (tc : ToolCall)
    (rest : List ToolCall) (messages : List Message) (w : ω) (tool : Tool ω) (e : String)
    (hfind : FindTool a.Tools tc.Function.Name = some tool)
    (hfail : (tool.Execute L tc.Function.Arguments w).1.2 = some e) :
    a.runToolCalls L (tc :: rest) messages w =
      a.runToolCalls L rest (messages ++ [⟨"tool", ""⟩]) w := by
  simp only [Agent.runToolCalls, hfind]
  cases hd : L.unmarshalArgs tc.Function.Arguments with
  | error err => simp [Tool.Execute, hd]
  | ok args => simp [Tool.Execute, hd] at hfail

/-! ## C5: a worker that fails inside `Supervisor.Invoke` -/

section SupervisorErrors

variable {γ ω : Type} (L : GoLib) (s : Supervisor γ ω) (workerFuel : Nat)

/-- An iteration of the supervisor loop returns an error only when the
supervisor's own call of the model returned that error. -/
theorem step_done_error (messages : List Message) (g : γ) (w : ω) (text e : String)
    (g1 : γ) (w1 : ω)
    (h : s.step L workerFuel messages g w = some (LoopStep.done (text, some e), g1, w1)) :
    (s.Model.Invoke messages s.buildTools g).1.err = some e ∧ text = "" := by
  unfold Supervisor.step at h
  cases herr : (s.Model.Invoke messages s.buildTools g).1.err with
  | some e1 =>
    simp only [herr, Option.some.injEq, Prod.mk.injEq, LoopStep.done.injEq] at h
    obtain ⟨⟨h1, h2⟩, -⟩ := h
    exact ⟨by rw [h2], h1.symm⟩
  | none =>
    simp only [herr] at h
    split at h
    · simp at h
    · cases hd : s.delegate L workerFuel (s.Model.Invoke messages s.buildTools g).1.toolCalls
          (messages ++ [⟨"assistant", (s.Model.Invoke messages s.buildTools g).1.content⟩])
          (s.Model.Invoke messages s.buildTools g).2 w with
      | none => simp [hd] at h
      | some out => simp [hd] at h

/-- The supervisor loop returns an error only when one of the supervisor's own
calls of the model returned that error. -/
theorem invokeLoop_error (fuel : Nat) :
    ∀ (messages : List Message) (g : γ) (w : ω) (text e : String) (g1 : γ) (w1 : ω),
      s.invokeLoop L workerFuel fuel messages g w = some ((text, some e), g1, w1) →
      text = "" ∧ ∃ history g0, (s.Model.Invoke history s.buildTools g0).1.err = some e := by
  induction fuel with
  | zero => intro messages g w text e g1 w1 h; simp [Supervisor.invokeLoop] at h
  | succ fuel ih =>
    intro messages g w text e g1 w1 h
    unfold Supervisor.invokeLoop at h
    cases hstep : s.step L workerFuel messages g w with
    | none => simp [hstep] at h
    | some res =>
      obtain ⟨st, g2, w2⟩ := res
      cases st with
      | done result =>
        simp only [hstep, Option.some.injEq, Prod.mk.injEq] at h
        obtain ⟨rfl, rfl, rfl⟩ := h
        have := step_done_error L s workerFuel messages g w text e g2 w2 hstep
        exact ⟨this.2, messages, g, this.1⟩
      | next messages1 =>
        simp only [hstep] at h
        exact ih messages1 g2 w2 text e g1 w1 h

end SupervisorErrors

/-- C5: when the worker run of a delegated tool call returns an error with
cause `c`, `Supervisor.Invoke` does not abort: it appends the `tool` message
`"执行失败: " ++ c` and goes on with the next delegation of the turn, the
turn ending as a continuation of the loop and not as a return.  And when
`Supervisor.Invoke` returns an error, one of the supervisor's own calls of
the model returned that error. -/
theorem supervisor_turns_worker_error_into_tool_message {γ ω : Type} (L : GoLib)
    (s : Supervisor γ ω) (workerFuel : Nat) (messages : List Message) (g : γ) (w : ω) :
    (∀ tc rest agent text c g1 w1,
      s.findAgent tc.Function.Name = some agent →
      agent.Run L (L.unmarshalTask tc.Function.Arguments).1 workerFuel g w
        = some ((text, some c), g1, w1) →
      s.delegate L workerFuel (tc :: rest) messages g w =
        s.delegate L workerFuel rest (messages ++ [⟨"tool", "执行失败: " ++ c⟩]) g1 w1) ∧
    (∀ res, s.step L workerFuel messages g w = some res →
      (s.Model.Invoke messages s.buildTools g).1.err = none →
      (s.Model.Invoke messages s.buildTools g).1.toolCalls ≠ [] →
      ∃ messages1, res.1 = LoopStep.next messages1) ∧
    (∀ userMessage fuel text e g1 w1,
      s.Invoke L userMessage workerFuel fuel g w = some ((text, some e), g1, w1) →
      text = "" ∧ ∃ history g0, (s.Model.Invoke history s.buildTools g0).1.err = some e) := by
  refine ⟨?_, ?_, ?_⟩
  · intro tc rest agent text c g1 w1 hfind hrun
    simp [Supervisor.delegate, hfind, hrun, delegationResult]
  · intro res hres herr hcalls
    have hlen : ¬ (s.Model.Invoke messages s.buildTools g).1.toolCalls.length = 0 := by
      simpa using hcalls
    simp only [Supervisor.step, herr, hlen, if_false] at hres
    cases hd : s.delegate L workerFuel (s.Model.Invoke messages s.buildTools g).1.toolCalls
        (messages ++ [⟨"assistant", (s.Model.Invoke messages s.buildTools g).1.content⟩])
        (s.Model.Invoke messages s.buildTools g).2 w with
    | none => simp [hd] at hres
    | some out =>
      simp only [hd, Option.some.injEq] at hres
      exact ⟨out.1, by rw [← hres]⟩
  · intro userMessage fuel text e g1 w1 h
    exact invokeLoop_error L s workerFuel fuel _ g w text e g1 w1 h

/-- C5, at a concrete session: the hotel assistant's call of the model fails
with `API error: boom`; the supervisor of `main` appends the failure text as a
`tool` message and returns the answer of its next call, without error. -/
theorem supervisor_turns_worker_error_into_tool_message_witness :
    (mainSupervisor (scriptedGateway failingWorkerScript) : Supervisor Nat Unit).delegate goLib 5
        [⟨"call_1", ⟨"hotel_assistant", "\x7b\"task\":\"book hotel X\"\x7d"⟩⟩]
        [⟨"system", "p"⟩, ⟨"user", "u"⟩, ⟨"assistant", ""⟩] 1 () =
      some ([⟨"system", "p"⟩, ⟨"user", "u"⟩, ⟨"assistant", ""⟩,
        ⟨"tool", "执行失败: API error: boom"⟩], 2, ()) ∧
    (mainSupervisor (scriptedGateway failingWorkerScript) : Supervisor Nat Unit).Invoke goLib
        "book a hotel called X" 5 5 0 () = some (("Sorry", none), 3, ()) :=
  ⟨((supervisor_turns_worker_error_into_tool_message goLib
      (mainSupervisor (scriptedGateway failingWorkerScript) : Supervisor Nat Unit) 5
      [⟨"system", "p"⟩, ⟨"user", "u"⟩, ⟨"assistant", ""⟩] 1 ()).1
      ⟨"call_1", ⟨"hotel_assistant", "\x7b\"task\":\"book hotel X\"\x7d"⟩⟩ []
      (NewHotelAssistant (scriptedGateway failingWorkerScript)) "" "API error: boom" 2 ()
      rfl rfl).trans rfl,
    rfl⟩

/-! ## C6: which worker a delegation runs -/

/-- In a roster of two agents with distinct names, a name is looked up to the
agent that bears it, whichever comes first. -/
theorem findAgent_of_two {γ ω : Type} (s : Supervisor γ ω) (A B : Agent γ ω)
    (hne : A.Name ≠ B.Name) (hroster : s.Agents = [A, B] ∨ s.Agents = [B, A]) :
    s.findAgent A.Name = some A := by
  rcases hroster with h | h
  · simp [Supervisor.findAgent, h, findAgentIn]
  · simp [Supervisor.findAgent, h, findAgentIn, Ne.symm hne]

/-- C6: the roster holds two agents `A` and `B` with distinct names, and a
tool call bears the name of `A` with arguments that decode to the task `T`.
Then the delegation is exactly the run `A.Run(T)`: it does not return when
that run does not, and otherwise its outcome is that run's outcome, the
states it leaves are those this one run leaves (no other run, of `B` or of
anyone, takes place), and the `tool` message appended carries its result. -/
theorem delegation_runs_exactly_the_named_agent {γ ω : Type} (L : GoLib)
    (s : Supervisor γ ω) (A B : Agent γ ω) (workerFuel : Nat) (tc : ToolCall) (T : String)
    (rest : List ToolCall) (messages : List Message) (g : γ) (w : ω)
    (hne : A.Name ≠ B.Name) (hroster : s.Agents = [A, B] ∨ s.Agents = [B, A])
    (hname : tc.Function.Name = A.Name)
    (htask : (L.unmarshalTask tc.Function.Arguments).1 = T) :
    s.findAgent tc.Function.Name = some A ∧
    s.delegate L workerFuel [tc] messages g w =
      (A.Run L T workerFuel g w).map
        (fun out => (messages ++ [⟨"tool", delegationResult out.1⟩], out.2.1, out.2.2)) ∧
    s.delegate L workerFuel (tc :: rest) messages g w =
      (A.Run L T workerFuel g w).bind
        (fun out => s.delegate L workerFuel rest
          (messages ++ [⟨"tool", delegationResult out.1⟩]) out.2.1 out.2.2) := by
  have hfind : s.findAgent tc.Function.Name = some A := by
    rw [hname]
    exact findAgent_of_two s A B hne hroster
  refine ⟨hfind, ?_, ?_⟩
  · simp only [Supervisor.delegate, hfind, htask]
    cases A.Run L T workerFuel g w with
    | none => rfl
    | some out => rfl
  · simp only [Supervisor.delegate, hfind, htask]
    cases A.Run L T workerFuel g w with
    | none => rfl
    | some out => rfl

/-- C6, at a concrete session: the supervisor of `main` is asked for
`hotel_assistant` with arguments `{"task":"book hotel X"}`; the delegation is
the run of the hotel assistant on `book hotel X`, which answers `Done` after
two calls of the model. -/
theorem delegation_runs_exactly_the_named_agent_witness :
    (NewHotelAssistant (scriptedGateway bookingScript) : Agent Nat Unit).Run goLib
        "book hotel X" 5 1 () = some (("Done", none), 3, ()) ∧
    (mainSupervisor (scriptedGateway bookingScript) : Supervisor Nat Unit).delegate goLib 5
        [⟨"call_1", ⟨"hotel_assistant", "\x7b\"task\":\"book hotel X\"\x7d"⟩⟩]
        [⟨"system", "p"⟩, ⟨"user", "u"⟩, ⟨"assistant", ""⟩] 1 () =
      some ([⟨"system", "p"⟩, ⟨"user", "u"⟩, ⟨"assistant", ""⟩, ⟨"tool", "Done"⟩], 3, ()) :=
  ⟨rfl,
    ((delegation_runs_exactly_the_named_agent goLib
      (mainSupervisor (scriptedGateway bookingScript) : Supervisor Nat Unit)
      (NewHotelAssistant (scriptedGateway bookingScript))
      (NewFlightAssistant (scriptedGateway bookingScript)) 5
      ⟨"call_1", ⟨"hotel_assistant", "\x7b\"task\":\"book hotel X\"\x7d"⟩⟩ "book hotel X" []
      [⟨"system", "p"⟩, ⟨"user", "u"⟩, ⟨"assistant", ""⟩] 1 ()
      (by decide) (Or.inl rfl) rfl rfl).2.1).trans rfl⟩

/-! ## C7: `Tool.Execute` -/

/-- A text that begins with a literal has it as prefix. -/
theorem hasPrefix_append (p q r : String) (h : p.data.isPrefixOf q.data = true) :
    HasPrefix (q ++ r) p = true := by
  unfold HasPrefix
  rw [List.isPrefixOf_iff_prefix] at h ⊢
  rw [String.data_append]
  exact h.trans (List.prefix_append _ _)

/-- C7: when the argument text fails to decode into a mapping, with cause `e`,
`Tool.Execute` returns the error `"invalid argument: " ++ e`, which starts
with `invalid argument`, and `Func` is not invoked: the environment is
unchanged and the outcome is the same whatever `Func` is.  When the text
decodes to the mapping `m`, it returns the outcome of `Func(m)` and no
error. -/
theorem execute_decodes_then_calls_func {ω : Type} (L : GoLib) (t : Tool ω)
    (argsJSON : String) (w : ω) :
    (∀ e, L.unmarshalArgs argsJSON = .error e →
      t.Execute L argsJSON w = (("", some ("invalid argument: " ++ e)), w) ∧
      HasPrefix ("invalid argument: " ++ e) "invalid argument" = true ∧
      ∀ f : ToolFunc ω,
        Tool.Execute L ⟨t.Name, t.Description, t.Parameters, f⟩ argsJSON w =
          t.Execute L argsJSON w) ∧
    (∀ m, L.unmarshalArgs argsJSON = .ok m →
      t.Execute L argsJSON w = (((t.Func m w).1, none), (t.Func m w).2)) := by
  constructor
  · intro e he
    refine ⟨by simp [Tool.Execute, he], hasPrefix_append _ _ _ (by decide), ?_⟩
    intro f
    simp [Tool.Execute, he]
  · intro m hm
    simp [Tool.Execute, hm]

/-- C7, at concrete texts: `book_hotel` on a text cut short and on a
well-formed one. -/
theorem execute_decodes_then_calls_func_witness :
    Tool.Execute goLib (BookHotelTool : Tool Unit) "\x7b\"hotel_name\":\"X" () =
      (("", some "invalid argument: invalid JSON syntax"), ()) ∧
    Tool.Execute goLib (BookHotelTool : Tool Unit) "\x7b\"hotel_name\":\"X\"\x7d" () =
      (("成功预定酒店: X", none), ()) :=
  ⟨((execute_decodes_then_calls_func goLib (BookHotelTool : Tool Unit)
      "\x7b\"hotel_name\":\"X" ()).1 "invalid JSON syntax" rfl).1,
    ((execute_decodes_then_calls_func goLib (BookHotelTool : Tool Unit)
      "\x7b\"hotel_name\":\"X\"\x7d" ()).2 [("hotel_name", Json.str "X")] rfl).trans rfl⟩

/-! ## Tool discovery over the scanned lines -/

section Discovery

variable {ω : Type} (L : GoLib) (c : MCPClient ω)

/-- The inner loop appends the entries of the announced tools, in order. -/
theorem appendTools_eq (tools : List ToolAnnouncement) :
    ∀ mcpTools : List (Tool ω),
      c.appendTools L tools mcpTools = mcpTools ++ tools.map (c.toolOf L) := by
  induction tools with
  | nil => intro mcpTools; simp [MCPClient.appendTools]
  | cons t rest ih =>
    intro mcpTools
    simp only [MCPClient.appendTools]
    rw [ih]
    simp [MCPClient.toolOf]

/-- The outer loop appends the entries of the tools announced by the lines. -/
theorem scanTools_eq (lines : List String) :
    ∀ mcpTools : List (Tool ω),
      c.scanTools L lines mcpTools =
        mcpTools ++ (announcedTools L lines).map (c.toolOf L) := by
  induction lines with
  | nil => intro mcpTools; simp [MCPClient.scanTools, announcedTools]
  | cons line rest ih =>
    intro mcpTools
    by_cases hp : HasPrefix line "data: " = true
    · cases hd : L.unmarshalTools (TrimPrefix line "data: ") with
      | error e => simp [MCPClient.scanTools, announcedTools, announcement, hp, hd, ih]
      | ok tools =>
        simp [MCPClient.scanTools, announcedTools, announcement, hp, hd, ih, appendTools_eq]
    · simp [MCPClient.scanTools, announcedTools, announcement, hp, ih]

end Discovery

/-- The tools of several streams one after the other. -/
theorem announcedTools_append (L : GoLib) (l1 l2 : List String) :
    announcedTools L (l1 ++ l2) = announcedTools L l1 ++ announcedTools L l2 := by
  induction l1 with
  | nil => rfl
  | cons line rest ih => simp [announcedTools, ih]

/-- A line made of the prefix and a payload has the prefix, and trimming it
leaves the payload. -/
theorem data_line (payload : String) :
    HasPrefix ("data: " ++ payload) "data: " = true ∧
    TrimPrefix ("data: " ++ payload) "data: " = payload := by
  have h : HasPrefix ("data: " ++ payload) "data: " = true := by
    unfold HasPrefix
    rw [List.isPrefixOf_iff_prefix, String.data_append]
    exact List.prefix_append _ _
  refine ⟨h, ?_⟩
  unfold TrimPrefix
  rw [if_pos h, String.data_append, List.drop_left]

/-- The loops of `parseSSETools` over the lines the scanner delivers: the
result is, without error, the list of the registry entries of the tools
announced by these lines: for each delivered line that starts with `data: `
and whose payload decodes as a tool list, the tools of that list in their
order, lines taken in the order delivered, each entry carrying the announced
name, description and schema; a line without the prefix and a payload that
does not decode contribute nothing. -/
theorem parseSSETools_returns_announced_tools {ω : Type} (L : GoLib) (c : MCPClient ω)
    (resp : HttpResponse) :
    c.parseSSETools L resp =
      ((announcedTools L (L.scanLines resp.Body)).map (c.toolOf L), none) ∧
    (c.parseSSETools L resp).1.map (fun t => (t.Name, t.Description, t.Parameters)) =
      (announcedTools L (L.scanLines resp.Body)).map
        (fun t => (t.Name, t.Description, t.InputSchema)) ∧
    (∀ before line after,
      announcedTools L (before ++ line :: after) =
        announcedTools L before ++ announcement L line ++ announcedTools L after) ∧
    (∀ line, HasPrefix line "data: " = false → announcement L line = []) ∧
    (∀ payload e, L.unmarshalTools payload = .error e →
      announcement L ("data: " ++ payload) = []) ∧
    (∀ payload tools, L.unmarshalTools payload = .ok tools →
      announcement L ("data: " ++ payload) = tools) := by
  have hmain : c.parseSSETools L resp =
      ((announcedTools L (L.scanLines resp.Body)).map (c.toolOf L), none) := by
    simp [MCPClient.parseSSETools, scanTools_eq]
  refine ⟨hmain, ?_, ?_, ?_, ?_, ?_⟩
  · rw [hmain]
    simp [List.map_map, Function.comp_def, MCPClient.toolOf]
  · intro before line after
    rw [announcedTools_append]
    simp [announcedTools]
  · intro line h
    simp [announcement, h]
  · intro payload e h
    simp [announcement, (data_line payload).1, (data_line payload).2, h]
  · intro payload tools h
    simp [announcement, (data_line payload).1, (data_line payload).2, h]

/-- A stream of short lines, an endpoint event and a tool announcement, yields
the one announced tool. -/
theorem parseSSETools_short_lines_example :
    ((fixedProvider "").parseSSETools goLib ⟨200, discoveryStream⟩).1.map
        (fun t => (t.Name, t.Description, t.Parameters)) =
      [("search", "web search", [("type", Json.str "object")])] ∧
    ((fixedProvider "").parseSSETools goLib ⟨200, discoveryStream⟩).2 = none :=
  ⟨((parseSSETools_returns_announced_tools goLib (fixedProvider "")
      ⟨200, discoveryStream⟩).2.1).trans rfl,
    congrArg Prod.snd (parseSSETools_returns_announced_tools goLib (fixedProvider "")
      ⟨200, discoveryStream⟩).1⟩

/-! ## C8: a line longer than the scanner's buffer -/

/-- A run of one-byte characters that fills the scanner's buffer before any
newline ends the scan: nothing more is delivered. -/
theorem splitLines_overlong (k : Nat) (rest : List Char) :
    ∀ (cur : List Char) (size : Nat), size < Ref.maxScanTokenSize →
      Ref.maxScanTokenSize ≤ size + k →
      Ref.splitLines (List.replicate k 'x' ++ rest) cur size = [] := by
  induction k with
  | zero => intro cur size h1 h2; omega
  | succ k ih =>
    intro cur size h1 h2
    have hx : ('x' : Char).utf8Size = 1 := rfl
    have hnl : ¬ ('x' : Char) = '\n' := by decide
    simp only [List.replicate_succ, List.cons_append, Ref.splitLines, hnl, if_false, hx]
    by_cases hfull : Ref.maxScanTokenSize ≤ size + 1
    · rw [if_pos hfull]
    · rw [if_neg hfull]
      exact ih _ (size + 1) (by omega) (by omega)

set_option maxRecDepth 8192 in
/-- The scanner delivers the first line of `overlongChars` and goes on with
six bytes of the second line buffered. -/
theorem splitLines_first_line (rest : List Char) :
    Ref.splitLines (announcementLineA.data ++ '\n' :: ("data: ".data ++ rest)) [] 0 =
      announcementLineA :: Ref.splitLines rest "data: ".data.reverse 6 := rfl

/-- The scanner delivers the first line of `overlongStream` and stops in the
second one. -/
theorem scanLines_overlongStream :
    goLib.scanLines overlongStream = [announcementLineA] := by
  have hscan : goLib.scanLines overlongStream = Ref.splitLines overlongChars [] 0 := by
    simp only [goLib, overlongStream]
  have hsmall : 6 < Ref.maxScanTokenSize := by unfold Ref.maxScanTokenSize; omega
  have hlarge : Ref.maxScanTokenSize ≤ 6 + 70000 := by unfold Ref.maxScanTokenSize; omega
  rw [hscan, overlongChars, splitLines_first_line, splitLines_overlong 70000 _ _ 6 hsmall hlarge]

/-- C8 (code at the failing input): the stream `overlongStream` has three
lines that start with `data: `; the payloads of the first and of the third
decode as tool lists, announcing `a` and `b`, the payload of the second, 70000
bytes long, does not.  `parseSSETools` returns the tool `a` alone, and no
error: the scanner stops at the second line, longer than its buffer, the loop
ends, and `scanner.Err()` is not looked at. -/
theorem parseSSETools_loses_tools_after_overlong_line :
    ((fixedProvider "").parseSSETools goLib ⟨200, overlongStream⟩).1.map
        (fun t => (t.Name, t.Description)) = [("a", "first tool")] ∧
    ((fixedProvider "").parseSSETools goLib ⟨200, overlongStream⟩).2 = none ∧
    announcement goLib announcementLineA = [⟨"a", "first tool", []⟩] ∧
    announcement goLib announcementLineB = [⟨"b", "second tool", []⟩] := by
  refine ⟨?_, rfl, rfl, rfl⟩
  rw [(parseSSETools_returns_announced_tools goLib (fixedProvider "")
    ⟨200, overlongStream⟩).1]
  show ((announcedTools goLib (goLib.scanLines overlongStream)).map
    ((fixedProvider "").toolOf goLib)).map (fun t => (t.Name, t.Description)) = _
  rw [scanLines_overlongStream]
  rfl

/-! ## C9 and C10: remote execution -/

section Execution

variable {ω : Type} (L : GoLib) (c : MCPClient ω)

/-- The request `ExecuteTool` sends for a tool name and an argument mapping,
when `http.NewRequest` accepts it. -/
theorem executeTool_of_response (toolName : String) (args : JsonMap) (w w1 : ω)
    (req : HttpRequest) (resp : HttpResponse)
    (hreq : L.newRequest "POST" c.URL
      (L.marshal (Json.obj [("method", Json.str "tools/call"),
        ("params", Json.obj [("name", Json.str toolName), ("arguments", Json.obj args)])]))
      = .ok req)
    (hdo : c.client ((req.setHeader "Content-Type" "application/json").setHeaders c.Headers) w
      = (.ok resp, w1)) :
    c.ExecuteTool L toolName args w =
      match L.decodeContent resp.Body with
      | .error e => (("", some e), w1)
      | .ok (first :: _) => ((first.Text, none), w1)
      | .ok [] => (("", none), w1) := by
  simp only [MCPClient.ExecuteTool, hreq, hdo]
  cases L.decodeContent resp.Body with
  | error e => rfl
  | ok content =>
    cases content with
    | nil => rfl
    | cons first rest => rfl

/-- When `http.NewRequest` rejects the request, `ExecuteTool` returns its error. -/
theorem executeTool_of_request_error (toolName : String) (args : JsonMap) (w : ω) (e : String)
    (hreq : L.newRequest "POST" c.URL
      (L.marshal (Json.obj [("method", Json.str "tools/call"),
        ("params", Json.obj [("name", Json.str toolName), ("arguments", Json.obj args)])]))
      = .error e) :
    c.ExecuteTool L toolName args w = (("", some e), w) := by
  simp only [MCPClient.ExecuteTool, hreq]

/-- When the exchange with the provider fails, `ExecuteTool` returns its error. -/
theorem executeTool_of_transport_error (toolName : String) (args : JsonMap) (w w1 : ω)
    (req : HttpRequest) (e : String)
    (hreq : L.newRequest "POST" c.URL
      (L.marshal (Json.obj [("method", Json.str "tools/call"),
        ("params", Json.obj [("name", Json.str toolName), ("arguments", Json.obj args)])]))
      = .ok req)
    (hdo : c.client ((req.setHeader "Content-Type" "application/json").setHeaders c.Headers) w
      = (.error e, w1)) :
    c.ExecuteTool L toolName args w = (("", some e), w1) := by
  simp only [MCPClient.ExecuteTool, hreq, hdo]

end Execution

/-- C9 (as stated, refuted): the provider answers with a body that is not
JSON, and with an empty body; `ExecuteTool` returns an error in both cases,
not an empty result without error. -/
theorem executeTool_malformed_response_is_an_error :
    ((fixedProvider "<html>Bad Gateway</html>").ExecuteTool goLib "X" [] ()).1 =
      ("", some "invalid JSON syntax") ∧
    ((fixedProvider "").ExecuteTool goLib "X" [] ()).1 = ("", some "EOF") := by
  constructor <;> rfl

/-- C9 (amended): for every response body received by `ExecuteTool`: when the
body decodes and its content list is non-empty, the result is the text of the
first content entry, without error; when the body decodes and the content list
is empty or absent, the result is the empty string, without error; when the
body does not decode (malformed, or empty), `ExecuteTool` returns the decoding
error, with the empty string as text. -/
theorem executeTool_result_of_response_body {ω : Type} (L : GoLib) (c : MCPClient ω)
    (toolName : String) (args : JsonMap) (w w1 : ω) (req : HttpRequest) (resp : HttpResponse)
    (hreq : L.newRequest "POST" c.URL
      (L.marshal (Json.obj [("method", Json.str "tools/call"),
        ("params", Json.obj [("name", Json.str toolName), ("arguments", Json.obj args)])]))
      = .ok req)
    (hdo : c.client ((req.setHeader "Content-Type" "application/json").setHeaders c.Headers) w
      = (.ok resp, w1)) :
    (∀ first rest, L.decodeContent resp.Body = .ok (first :: rest) →
      c.ExecuteTool L toolName args w = ((first.Text, none), w1)) ∧
    (L.decodeContent resp.Body = .ok [] →
      c.ExecuteTool L toolName args w = (("", none), w1)) ∧
    (∀ e, L.decodeContent resp.Body = .error e →
      c.ExecuteTool L toolName args w = (("", some e), w1)) := by
  have h := executeTool_of_response L c toolName args w w1 req resp hreq hdo
  refine ⟨?_, ?_, ?_⟩
  · intro first rest hd
    rw [h, hd]
  · intro hd
    rw [h, hd]
  · intro e hd
    rw [h, hd]

/-- C9 (amended), at concrete bodies: two content entries, an empty content
list, and a body that is not JSON. -/
theorem executeTool_result_of_response_body_witness :
    (fixedProvider "\x7b\"content\":[\x7b\"text\":\"OK\"\x7d,\x7b\"text\":\"more\"\x7d]\x7d").ExecuteTool
        goLib "X" [] () = (("OK", none), ()) ∧
    (fixedProvider "\x7b\"content\":[]\x7d").ExecuteTool goLib "X" [] () = (("", none), ()) ∧
    (fixedProvider "<html>Bad Gateway</html>").ExecuteTool goLib "X" [] () =
      (("", some "invalid JSON syntax"), ()) :=
  ⟨(executeTool_result_of_response_body goLib
      (fixedProvider "\x7b\"content\":[\x7b\"text\":\"OK\"\x7d,\x7b\"text\":\"more\"\x7d]\x7d")
      "X" [] () () _ _ rfl rfl).1 ⟨"OK"⟩ [⟨"more"⟩] rfl,
    (executeTool_result_of_response_body goLib (fixedProvider "\x7b\"content\":[]\x7d")
      "X" [] () () _ _ rfl rfl).2.1 rfl,
    (executeTool_result_of_response_body goLib (fixedProvider "<html>Bad Gateway</html>")
      "X" [] () () _ _ rfl rfl).2.2 "invalid JSON syntax" rfl⟩

/-- C10: the executor built by `createToolExecutor(X)` always returns a text.
When the remote execution succeeds (the request is accepted, the provider
answers, the body decodes) it returns exactly the text `ExecuteTool` returns:
the text of the first content entry, or the empty string when there is none.
When the remote execution fails with cause `e` (the request is rejected, the
exchange fails, or the body does not decode) it returns
`"工具执行失败: " ++ e`. -/
theorem executor_returns_text_or_failure_text {ω : Type} (L : GoLib) (c : MCPClient ω)
    (X : String) (args : JsonMap) (w : ω) :
    (∀ t, (c.ExecuteTool L X args w).1 = (t, none) →
      c.createToolExecutor L X args w = (t, (c.ExecuteTool L X args w).2)) ∧
    (∀ t e, (c.ExecuteTool L X args w).1 = (t, some e) →
      c.createToolExecutor L X args w = ("工具执行失败: " ++ e, (c.ExecuteTool L X args w).2)) ∧
    (∀ e, L.newRequest "POST" c.URL
        (L.marshal (Json.obj [("method", Json.str "tools/call"),
          ("params", Json.obj [("name", Json.str X), ("arguments", Json.obj args)])]))
        = .error e →
      c.createToolExecutor L X args w = ("工具执行失败: " ++ e, w)) ∧
    (∀ req, L.newRequest "POST" c.URL
        (L.marshal (Json.obj [("method", Json.str "tools/call"),
          ("params", Json.obj [("name", Json.str X), ("arguments", Json.obj args)])]))
        = .ok req →
      (∀ e w1,
        c.client ((req.setHeader "Content-Type" "application/json").setHeaders c.Headers) w
          = (.error e, w1) →
        c.createToolExecutor L X args w = ("工具执行失败: " ++ e, w1)) ∧
      (∀ resp w1,
        c.client ((req.setHeader "Content-Type" "application/json").setHeaders c.Headers) w
          = (.ok resp, w1) →
        (∀ e, L.decodeContent resp.Body = .error e →
          c.createToolExecutor L X args w = ("工具执行失败: " ++ e, w1)) ∧
        (∀ first rest, L.decodeContent resp.Body = .ok (first :: rest) →
          c.createToolExecutor L X args w = (first.Text, w1)) ∧
        (L.decodeContent resp.Body = .ok [] →
          c.createToolExecutor L X args w = ("", w1)))) := by
  have hok : ∀ t, (c.ExecuteTool L X args w).1 = (t, none) →
      c.createToolExecutor L X args w = (t, (c.ExecuteTool L X args w).2) := by
    intro t h
    simp [MCPClient.createToolExecutor, h]
  have hfail : ∀ t e, (c.ExecuteTool L X args w).1 = (t, some e) →
      c.createToolExecutor L X args w =
        ("工具执行失败: " ++ e, (c.ExecuteTool L X args w).2) := by
    intro t e h
    simp [MCPClient.createToolExecutor, h]
  refine ⟨hok, hfail, ?_, ?_⟩
  · intro e hreq
    have h := executeTool_of_request_error L c X args w e hreq
    rw [hfail "" e (by rw [h]), h]
  · intro req hreq
    constructor
    · intro e w1 hdo
      have h := executeTool_of_transport_error L c X args w w1 req e hreq hdo
      rw [hfail "" e (by rw [h]), h]
    · intro resp w1 hdo
      have h := executeTool_of_response L c X args w w1 req resp hreq hdo
      refine ⟨?_, ?_, ?_⟩
      · intro e hd
        rw [hd] at h
        rw [hfail "" e (by rw [h]), h]
      · intro first rest hd
        rw [hd] at h
        rw [hok first.Text (by rw [h]), h]
      · intro hd
        rw [hd] at h
        rw [hok "" (by rw [h]), h]

/-- C10, at concrete providers: one that answers `{"content":[{"text":"OK"}]}`
for tool `X`, and one that cannot be reached. -/
theorem executor_returns_text_or_failure_text_witness :
    (fixedProvider "\x7b\"content\":[\x7b\"text\":\"OK\"\x7d]\x7d").createToolExecutor goLib "X"
        [] () = ("OK", ()) ∧
    unreachableProvider.createToolExecutor goLib "X" [] () =
      ("工具执行失败: connection refused", ()) :=
  ⟨((executor_returns_text_or_failure_text goLib
      (fixedProvider "\x7b\"content\":[\x7b\"text\":\"OK\"\x7d]\x7d") "X" [] ()).1 "OK" rfl).trans rfl,
    ((executor_returns_text_or_failure_text goLib unreachableProvider "X" [] ()).2.1
      "" "connection refused" rfl).trans rfl⟩

/-! ## C11: the model-facing tool list -/

section OpenAITools

variable {ω : Type}

/-- The loop writes into `result` without changing its length. -/
theorem fillOpenAITools_length (tools : List (Tool ω)) :
    ∀ (i : Nat) (result : List Json), (fillOpenAITools tools i result).length = result.length := by
  induction tools with
  | nil => intro i result; rfl
  | cons t rest ih =>
    intro i result
    simp only [fillOpenAITools]
    rw [ih, List.length_set]

/-- The loop from index `i` on leaves the entries before `i` as they are. -/
theorem fillOpenAITools_before (tools : List (Tool ω)) :
    ∀ (i : Nat) (result : List Json) (j : Nat), j < i →
      (fillOpenAITools tools i result)[j]? = result[j]? := by
  induction tools with
  | nil => intro i result j _; rfl
  | cons t rest ih =>
    intro i result j hj
    simp only [fillOpenAITools]
    rw [ih (i + 1) _ j (by omega), List.getElem?_set_ne (by omega)]

/-- The loop from index `i` on stores the description of tool number `k` at
index `i + k`. -/
theorem fillOpenAITools_at (tools : List (Tool ω)) :
    ∀ (i : Nat) (result : List Json), i + tools.length ≤ result.length →
      ∀ (k : Nat) (t : Tool ω), tools[k]? = some t →
        (fillOpenAITools tools i result)[i + k]? = some t.ToOpenAITool := by
  induction tools with
  | nil => intro i result _ k t h; simp at h
  | cons x rest ih =>
    intro i result hlen k t h
    simp only [List.length_cons] at hlen
    simp only [fillOpenAITools]
    cases k with
    | zero =>
      obtain rfl : x = t := by simpa using h
      show (fillOpenAITools rest (i + 1) (result.set i x.ToOpenAITool))[i]? = _
      rw [fillOpenAITools_before rest (i + 1) _ i (Nat.lt_succ_self i),
        List.getElem?_set_self (by omega)]
    | succ k =>
      have h1 : rest[k]? = some t := by simpa using h
      have := ih (i + 1) (result.set i x.ToOpenAITool)
        (by rw [List.length_set]; omega) k t h1
      rwa [show i + 1 + k = i + (k + 1) by omega] at this

end OpenAITools

/-- C11: for every list of tools, `ToolsToOpenAI` returns a list of the same
length whose entry number `i` describes tool number `i` of the list, so the
registration order is kept (the result is the list of the descriptions, tool
by tool), and each entry has the shape `{type: "function", function: {name:
tool.Name, description: tool.Description, parameters: tool.Parameters}}`. -/
theorem toolsToOpenAI_describes_each_tool_in_order {ω : Type} (tools : List (Tool ω)) :
    (ToolsToOpenAI tools).length = tools.length ∧
    (∀ (i : Nat) (t : Tool ω), tools[i]? = some t →
      (ToolsToOpenAI tools)[i]? = some (Json.obj [
        ("type", Json.str "function"),
        ("function", Json.obj [
          ("name", Json.str t.Name),
          ("description", Json.str t.Description),
          ("parameters", Json.obj t.Parameters)])])) ∧
    ToolsToOpenAI tools = tools.map Tool.ToOpenAITool := by
  have hlen : (ToolsToOpenAI tools).length = tools.length := by
    rw [ToolsToOpenAI, fillOpenAITools_length, List.length_replicate]
  have hat : ∀ (i : Nat) (t : Tool ω), tools[i]? = some t →
      (ToolsToOpenAI tools)[i]? = some t.ToOpenAITool := by
    intro i t h
    have := fillOpenAITools_at tools 0 (List.replicate tools.length (Json.obj []))
      (by rw [List.length_replicate]; omega) i t h
    rwa [Nat.zero_add] at this
  refine ⟨hlen, fun i t h => hat i t h, ?_⟩
  apply List.ext_getElem?
  intro i
  cases h : tools[i]? with
  | some t => rw [hat i t h, List.getElem?_map, h]; rfl
  | none =>
    have hi : tools.length ≤ i := List.getElem?_eq_none_iff.mp h
    rw [List.getElem?_map, h, List.getElem?_eq_none_iff.mpr (by omega)]
    rfl

/-- C11, at the two booking tools: the list has two entries, the hotel tool
first; the second entry describes the flight tool. -/
theorem toolsToOpenAI_describes_each_tool_in_order_witness :
    (ToolsToOpenAI [(BookHotelTool : Tool Unit), BookFlightTool]).length = 2 ∧
    (ToolsToOpenAI [(BookHotelTool : Tool Unit), BookFlightTool])[1]? = some (Json.obj [
      ("type", Json.str "function"),
      ("function", Json.obj [
        ("name", Json.str "book_flight"),
        ("description", Json.str "预定机票，需要提供出发地和目的地"),
        ("parameters", Json.obj (BookFlightTool : Tool Unit).Parameters)])]) :=
  ⟨(toolsToOpenAI_describes_each_tool_in_order
      [(BookHotelTool : Tool Unit), BookFlightTool]).1,
    (toolsToOpenAI_describes_each_tool_in_order
      [(BookHotelTool : Tool Unit), BookFlightTool]).2.1 1 BookFlightTool rfl⟩

end MiniAgent
